import Mathlib

/-!
Verification of the floor-planning core in `floor.py` against its
natural-language specification.

The shallow embedding below translates the source faithfully:

* Gurobi model variables become the inductive type `Floor.Var`; the linear
  expressions appearing in `addConstr` calls become the AST `Floor.LinExpr`,
  and each `addConstr` form becomes a `Floor.Constr` constructor
  (`impl` is the indicator form `(v == 1) >> (e1 <= e2)`; `mulGe` is the one
  bilinear form `w*h >= area`).  Real-valued solver quantities are modelled
  exactly as rationals.
* The regex table `patterns` together with `re.match` (which anchors at the
  start of the text only and matches greedily with backtracking) becomes a
  family of executable prefix matchers over `List Char`.  For every pattern of
  the table except `similarity`, each greedy token `(\d+)` or `([-+e\d.]+)` is
  followed by a character outside its class, so maximal munch coincides with
  the regex semantics; in `similarity` the tail literal `-scaled ...` begins
  with a character of the class, and the matcher reproduces the regex
  backtracking by giving back one character at a time (`simBT`).
* Python `int()` on a captured digit group becomes `digitsToNat`; Python
  `float()` on a captured `[-+e\d.]+` group becomes the exact-rational partial
  parser `pyFloatL`, which accepts precisely the decimal/exponent literals
  `float()` accepts over that character class and fails (`none`, the
  `ValueError` of the source) on the rest.
* Each distinct exception path of the source gets its own `PyErr` constructor.
* The external Gurobi backend is an opaque oracle
  `GModel → ℚ → GStatus × (Var → ℚ)`; `solve` threads it exactly as the
  source threads `model.optimize()` / `model.status` / `.X` reads.

Characters are treated at ASCII granularity (`Char.isDigit`,
`String.toLower`), matching the source's use on its ASCII pattern alphabet.
-/

namespace Floor

/-- Variables of the Gurobi model built by `solve` in `floor.py`:
the bounding rectangle `W, H`, the per-box geometry arrays `w, h, x, y`
(all continuous with lower bound 0), and the four binary direction
indicators `l, r, b, t` created for each pair `i < j`. -/
inductive Var where
  | W : Var
  | H : Var
  | w (i : ℕ) : Var
  | h (i : ℕ) : Var
  | x (i : ℕ) : Var
  | y (i : ℕ) : Var
  | l (i j : ℕ) : Var
  | r (i j : ℕ) : Var
  | b (i j : ℕ) : Var
  | t (i j : ℕ) : Var
  deriving DecidableEq, Repr

/-- Linear expression AST, mirroring the Python expressions handed to
`model.addConstr` (sums, differences, scalar multiples such as
`ratio * h[box]`, and halving such as `h[box1] / 2`). -/
inductive LinExpr where
  | co (q : ℚ) : LinExpr
  | va (v : Var) : LinExpr
  | add (e₁ e₂ : LinExpr) : LinExpr
  | sub (e₁ e₂ : LinExpr) : LinExpr
  | smul (q : ℚ) (e : LinExpr) : LinExpr
  | divc (e : LinExpr) (q : ℚ) : LinExpr
  deriving DecidableEq, Repr

/-- Constraint AST: one constructor per `addConstr` form used in `floor.py`.
`impl v e₁ e₂` is the indicator constraint `(v == 1) >> (e₁ <= e₂)`;
`mulGe v₁ v₂ q` is the bilinear constraint `v₁ * v₂ >= q` (the `area` kind). -/
inductive Constr where
  | le (e₁ e₂ : LinExpr) : Constr
  | ge (e₁ e₂ : LinExpr) : Constr
  | eqn (e₁ e₂ : LinExpr) : Constr
  | impl (v : Var) (e₁ e₂ : LinExpr) : Constr
  | mulGe (v₁ v₂ : Var) (q : ℚ) : Constr
  deriving DecidableEq, Repr

/-- Value of a linear expression under an assignment of the variables. -/
def evalE (a : Var → ℚ) : LinExpr → ℚ
  | .co q => q
  | .va v => a v
  | .add e₁ e₂ => evalE a e₁ + evalE a e₂
  | .sub e₁ e₂ => evalE a e₁ - evalE a e₂
  | .smul q e => q * evalE a e
  | .divc e q => evalE a e / q

/-- Satisfaction of one model constraint by an assignment. -/
def holds (a : Var → ℚ) : Constr → Prop
  | .le e₁ e₂ => evalE a e₁ ≤ evalE a e₂
  | .ge e₁ e₂ => evalE a e₁ ≥ evalE a e₂
  | .eqn e₁ e₂ => evalE a e₁ = evalE a e₂
  | .impl v e₁ e₂ => a v = 1 → evalE a e₁ ≤ evalE a e₂
  | .mulGe v₁ v₂ q => a v₁ * a v₂ ≥ q

/-- Variable domains of the source model: `GRB.CONTINUOUS` with `lb=0`,
or `GRB.BINARY`. -/
inductive VType where
  | cont : VType
  | binary : VType
  deriving DecidableEq, Repr

/-- The assembled optimization model: declared variables with their domains,
the constraint list in insertion order, and the (minimized) objective. -/
structure GModel where
  vars : List (Var × VType)
  constrs : List Constr
  objective : LinExpr
  minimize : Bool
  deriving DecidableEq, Repr

/-- Domain constraint of one declared variable. -/
def varOk (a : Var → ℚ) : Var × VType → Prop
  | (v, .cont) => 0 ≤ a v
  | (v, .binary) => a v = 0 ∨ a v = 1

/-- Feasibility: all declared domains and all model constraints hold. -/
def feasible (m : GModel) (a : Var → ℚ) : Prop :=
  (∀ vt ∈ m.vars, varOk a vt) ∧ ∀ c ∈ m.constrs, holds a c

/-- List of the integers `s, s+1, ..., s+n-1`, used to mirror the Python
`range(...)` loops of `solve`. -/
def natRange (s n : ℕ) : List ℕ :=
  match n with
  | 0 => []
  | n + 1 => s :: natRange (s + 1) n

/-- Concatenation of `f` over a list, used to mirror nested loops that each
append several items. -/
def concatMap (f : α → List β) : List α → List β
  | [] => []
  | a :: rest => f a ++ concatMap f rest

/-- Bounding-box constraints of `solve` (lines 97-99):
`x[i] + w[i] <= W` and `y[i] + h[i] <= H` for every `i in range(N)`. -/
def boundConstrs (N : ℕ) : List Constr :=
  concatMap (fun i =>
    [Constr.le (.add (.va (.x i)) (.va (.w i))) (.va .W),
     Constr.le (.add (.va (.y i)) (.va (.h i))) (.va .H)]) (natRange 0 N)

/-- The seven pairwise constraints that `solve` adds for a pair `i < j`
(lines 106-119): the four indicator implications on `l, r, b, t` with
padding `p`, then `l + r <= 1`, `b + t <= 1`, `l + r + b + t >= 1`. -/
def pairConstrsFor (p : ℚ) (i j : ℕ) : List Constr :=
  [Constr.impl (.l i j) (.add (.add (.va (.x i)) (.va (.w i))) (.co p)) (.va (.x j)),
   Constr.impl (.r i j) (.add (.add (.va (.x j)) (.va (.w j))) (.co p)) (.va (.x i)),
   Constr.impl (.b i j) (.add (.add (.va (.y i)) (.va (.h i))) (.co p)) (.va (.y j)),
   Constr.impl (.t i j) (.add (.add (.va (.y j)) (.va (.h j))) (.co p)) (.va (.y i)),
   Constr.le (.add (.va (.l i j)) (.va (.r i j))) (.co 1),
   Constr.le (.add (.va (.b i j)) (.va (.t i j))) (.co 1),
   Constr.ge (.add (.add (.add (.va (.l i j)) (.va (.r i j))) (.va (.b i j))) (.va (.t i j)))
     (.co 1)]

/-- All pairwise constraints: the double loop `for i in range(N): for j in
range(i+1, N)` of `solve`. -/
def pairConstrs (N : ℕ) (p : ℚ) : List Constr :=
  concatMap (fun i => concatMap (pairConstrsFor p i) (natRange (i + 1) (N - (i + 1))))
    (natRange 0 N)

/-- Variable declarations of `solve` (lines 86-91 and 106), in source order:
`W, H`, then the arrays `w, h, x, y`, then the binary pair indicators. -/
def baseVars (N : ℕ) : List (Var × VType) :=
  [(Var.W, VType.cont), (Var.H, VType.cont)]
    ++ (natRange 0 N).map (fun i => (Var.w i, VType.cont))
    ++ (natRange 0 N).map (fun i => (Var.h i, VType.cont))
    ++ (natRange 0 N).map (fun i => (Var.x i, VType.cont))
    ++ (natRange 0 N).map (fun i => (Var.y i, VType.cont))
    ++ concatMap (fun i =>
         concatMap (fun j =>
           [(Var.l i j, VType.binary), (Var.r i j, VType.binary),
            (Var.b i j, VType.binary), (Var.t i j, VType.binary)])
           (natRange (i + 1) (N - (i + 1)))) (natRange 0 N)

/-- The model `solve` assembles before compiling user constraints:
objective `minimize 2*(W+H)` (line 94), bounding constraints, and the
pairwise non-overlap disjunctions. -/
def baseModel (N : ℕ) (p : ℚ) : GModel :=
  { vars := baseVars N
    constrs := boundConstrs N ++ pairConstrs N p
    objective := .smul 2 (.add (.va .W) (.va .H))
    minimize := true }

/-- Consume the literal `lit` from the front of `s` (one step of matching the
fixed text of a pattern); `none` on the first mismatching character. -/
def dropLit : List Char → List Char → Option (List Char)
  | [], s => some s
  | _ :: _, [] => none
  | c :: lit, d :: s => if c = d then dropLit lit s else none

/-- Greedy maximal munch of characters satisfying `pr`, returning the matched
group and the remainder.  This is the regex semantics of `(\d+)` and
`([-+e\d.]+)` in the source patterns wherever the following pattern character
is outside the class. -/
def munch (pr : Char → Bool) : List Char → List Char × List Char
  | [] => ([], [])
  | c :: s =>
    if pr c then ((munch pr s).1.cons c, (munch pr s).2)
    else ([], c :: s)

/-- Character class `[-+e\d.]` of the float token in the source patterns. -/
def floatChar (c : Char) : Bool :=
  c = '-' || c = '+' || c = 'e' || c.isDigit || c = '.'

/-- Python `int()` on a captured nonempty digit group. -/
def digitsToNat (g : List Char) : ℕ :=
  g.foldl (fun n c => 10 * n + (c.toNat - 48)) 0

/-- Optional leading sign of a Python float literal. -/
def readSign : List Char → Bool × List Char
  | '+' :: s => (false, s)
  | '-' :: s => (true, s)
  | s => (false, s)

/-- Mantissa of a Python float literal: digits with an optional point, at
least one digit on one side of the point.  Returns the integer-part and
fraction-part digit groups. -/
def mantissa (s : List Char) : Option ((List Char × List Char) × List Char) :=
  let (ip, s₁) := munch Char.isDigit s
  match s₁ with
  | '.' :: s₂ =>
    let (fp, s₃) := munch Char.isDigit s₂
    if ip = [] ∧ fp = [] then none else some ((ip, fp), s₃)
  | _ => if ip = [] then none else some ((ip, []), s₁)

/-- Optional exponent part `e[+|-]digits` of a Python float literal. -/
def expVal : List Char → Option (ℤ × List Char)
  | 'e' :: s₁ =>
    let (neg, s₂) := readSign s₁
    let (d, s₃) := munch Char.isDigit s₂
    if d = [] then none
    else some ((if neg then -(digitsToNat d : ℤ) else (digitsToNat d : ℤ)), s₃)
  | s => some (0, s)

/-- Exact rational value of the float literal with sign `neg`, integer part
`ip`, fraction part `fp` and exponent `e`:
`± (ip·10^|fp| + fp) · 10^e / 10^|fp|`. -/
def pyFloatVal (neg : Bool) (ip fp : List Char) (e : ℤ) : ℚ :=
  let m : ℤ := (digitsToNat ip * 10 ^ fp.length + digitsToNat fp : ℕ)
  let sm : ℤ := if neg then -m else m
  if 0 ≤ e then mkRat (sm * 10 ^ e.toNat) (10 ^ fp.length)
  else mkRat sm (10 ^ fp.length * 10 ^ (-e).toNat)

/-- Python `float()` on a string over the class `[-+e\d.]`, as an exact
rational: `none` exactly when `float()` raises `ValueError`. -/
def pyFloatL (s : List Char) : Option ℚ :=
  let (neg, s₁) := readSign s
  match mantissa s₁ with
  | none => none
  | some ((ip, fp), s₂) =>
    match expVal s₂ with
    | none => none
    | some (e, s₃) =>
      if s₃ = [] then some (pyFloatVal neg ip fp e) else none

/-- First alternative of the list that is a prefix of `s` (regex alternation
`(a|b|...)` of literal words, leftmost-first). -/
def matchAlt : List (List Char) → List Char → Option (List Char × List Char)
  | [], _ => none
  | alt :: alts, s =>
    match dropLit alt s with
    | some rest => some (alt, rest)
    | none => matchAlt alts s

/-- Greedy one-or-more repetition: the regex tokens `(\d+)` and
`([-+e\d.]+)`; fails when the munch is empty. -/
def munchPlus (pr : Char → Bool) (s : List Char) : Option (List Char × List Char) :=
  if (munch pr s).1 = [] then none else some (munch pr s)

/-- Matcher for the patterns `box (\d+)<mid>([-+e\d.]+)` — the `width`,
`height` and `area` rows of the `patterns` table, with `mid` the fixed
middle text. -/
def matchIntFloat (mid : List Char) (s : List Char) :
    Option ((List Char × List Char) × List Char) := do
  let s₁ ← dropLit ("box ".data) s
  let (g₁, s₂) ← munchPlus Char.isDigit s₁
  let s₃ ← dropLit mid s₂
  let (g₂, s₄) ← munchPlus floatChar s₃
  some ((g₁, g₂), s₄)

/-- Matcher for `box (\d+) is to the (left|bottom) of box (\d+)`. -/
def matchPos (s : List Char) :
    Option ((List Char × List Char × List Char) × List Char) := do
  let s₁ ← dropLit ("box ".data) s
  let (g₁, s₂) ← munchPlus Char.isDigit s₁
  let s₃ ← dropLit (" is to the ".data) s₂
  let (side, s₄) ← matchAlt [("left".data), ("bottom".data)] s₃
  let s₅ ← dropLit (" of box ".data) s₄
  let (g₃, s₆) ← munchPlus Char.isDigit s₅
  some ((g₁, side, g₃), s₆)

/-- Matcher for `box (\d+) has aspect ratio of (at least|at most)
([-+e\d.]+)`. -/
def matchRatio (s : List Char) :
    Option ((List Char × List Char × List Char) × List Char) := do
  let s₁ ← dropLit ("box ".data) s
  let (g₁, s₂) ← munchPlus Char.isDigit s₁
  let s₃ ← dropLit (" has aspect ratio of ".data) s₂
  let (cmp, s₄) ← matchAlt [("at least".data), ("at most".data)] s₃
  let s₅ ← dropLit (" ".data) s₄
  let (g₃, s₆) ← munchPlus floatChar s₅
  some ((g₁, cmp, g₃), s₆)

/-- Matcher for the two alignment patterns
`(k₁|k₂|k₃) of box (\d+) aligns <word> with (k₁|k₂|k₃) of box (\d+)`,
parameterized by the keyword alternatives and the middle text. -/
def matchAlign (alts : List (List Char)) (mid : List Char) (s : List Char) :
    Option ((List Char × List Char × List Char × List Char) × List Char) := do
  let (a₁, s₁) ← matchAlt alts s
  let s₂ ← dropLit (" of box ".data) s₁
  let (g₁, s₃) ← munchPlus Char.isDigit s₂
  let s₄ ← dropLit mid s₃
  let (a₂, s₅) ← matchAlt alts s₄
  let s₆ ← dropLit (" of box ".data) s₅
  let (g₂, s₇) ← munchPlus Char.isDigit s₆
  some ((a₁, g₁, a₂, g₂), s₇)

/-- Matcher for `box (\d+) and box (\d+) are symmetric through axis
(x|y)=([-+e\d.]+)`. -/
def matchSym (s : List Char) :
    Option ((List Char × List Char × List Char × List Char) × List Char) := do
  let s₁ ← dropLit ("box ".data) s
  let (g₁, s₂) ← munchPlus Char.isDigit s₁
  let s₃ ← dropLit (" and box ".data) s₂
  let (g₂, s₄) ← munchPlus Char.isDigit s₃
  let s₅ ← dropLit (" are symmetric through axis ".data) s₄
  let (ax, s₆) ← matchAlt [("x".data), ("y".data)] s₅
  let s₇ ← dropLit ("=".data) s₆
  let (g₃, s₈) ← munchPlus floatChar s₇
  some ((g₁, g₂, ax, g₃), s₈)

/-- Tail of the `similarity` pattern after the float group:
the literal `-scaled translate of box ` followed by `(\d+)`. -/
def simTail (rem : List Char) : Option (List Char × List Char) := do
  let s₁ ← dropLit ("-scaled translate of box ".data) rem
  let (g, s₂) ← munchPlus Char.isDigit s₁
  some (g, s₂)

/-- Regex backtracking of the greedy group `([-+e\d.]+)` of `similarity`
against its tail: try the longest capture first and give back one character
at a time (the capture is kept, reversed, in `capRev`). -/
def simBT : List Char → List Char → Option ((List Char × List Char) × List Char)
  | [], _ => none
  | c :: capRev, rem =>
    match simTail rem with
    | some (g₃, rest) => some (((c :: capRev).reverse, g₃), rest)
    | none => simBT capRev (c :: rem)

/-- Matcher for `box (\d+) is ([-+e\d.]+)-scaled translate of box (\d+)`. -/
def matchSim (s : List Char) :
    Option ((List Char × List Char × List Char) × List Char) := do
  let s₁ ← dropLit ("box ".data) s
  let (g₁, s₂) ← munchPlus Char.isDigit s₁
  let s₃ ← dropLit (" is ".data) s₂
  let (m, s₄) := munch floatChar s₃
  let ((g₂, g₃), rest) ← simBT m.reverse s₄
  some ((g₁, g₂, g₃), rest)

/-- Matcher for `box (\d+) contains a point \(([-+e\d.]+),([-+e\d.]+)\)`. -/
def matchCont (s : List Char) :
    Option ((List Char × List Char × List Char) × List Char) := do
  let s₁ ← dropLit ("box ".data) s
  let (g₁, s₂) ← munchPlus Char.isDigit s₁
  let s₃ ← dropLit (" contains a point (".data) s₂
  let (g₂, s₄) ← munchPlus floatChar s₃
  let s₅ ← dropLit (",".data) s₄
  let (g₃, s₆) ← munchPlus floatChar s₅
  let s₇ ← dropLit (")".data) s₆
  some ((g₁, g₂, g₃), s₇)

/-- Python `str.lower()` at ASCII granularity: lower-case every character
(`Char.toLower` maps exactly the basic latin capitals, which covers the
ASCII alphabet of the patterns). -/
def pyLower (s : String) : String :=
  String.mk (s.data.map Char.toLower)

/-- Structured parse result of `parse_match`: one constructor per constraint
kind, holding the typed fields of the tuple the source returns (box indices
from `int()`, values from `float()`, matched keywords as the captured
strings). -/
inductive Fact where
  | width (box : ℕ) (v : ℚ) : Fact
  | height (box : ℕ) (v : ℚ) : Fact
  | position (b₁ : ℕ) (side : String) (b₂ : ℕ) : Fact
  | area (box : ℕ) (v : ℚ) : Fact
  | ratio (box : ℕ) (cmp : String) (v : ℚ) : Fact
  | horizontalAlign (a₁ : String) (b₁ : ℕ) (a₂ : String) (b₂ : ℕ) : Fact
  | verticalAlign (a₁ : String) (b₁ : ℕ) (a₂ : String) (b₂ : ℕ) : Fact
  | symmetry (b₁ b₂ : ℕ) (ax : String) (v : ℚ) : Fact
  | similarity (b₁ : ℕ) (s : ℚ) (b₂ : ℕ) : Fact
  | containment (box : ℕ) (px py : ℚ) : Fact
  deriving DecidableEq, Repr

/-- The distinct exception paths of `floor.py`, one constructor each:
`invalidConstraint` is the `Exception("Invalid constraint")` raised by
`parse_match` on a regex mismatch; `keyError` is the `patterns[...]` lookup
failure on an unrecognized kind; `valueError` is `float()` on an invalid
literal; `invalidKind` is the `Exception(f"Invalid constraint: ...")` of the
final `else` in `parse_constraint`; `nameError` is the unbound-local failure
of a `match` statement with no matching case; `infeasibleError` is the
`Exception("Infeasible model")` after an infeasible solve. -/
inductive PyErr where
  | invalidConstraint : PyErr
  | keyError : PyErr
  | valueError : PyErr
  | invalidKind : PyErr
  | nameError : PyErr
  | infeasibleError : PyErr
  deriving DecidableEq, Repr

/-- The ten keys of the `patterns` table, in source order. -/
def kinds10 : List String :=
  ["width", "height", "position", "area", "ratio", "horizontal_align",
   "vertical_align", "symmetry", "similarity", "containment"]

/-- The `width` branch of `parse_match`: regex match, then
`int(match[0]), float(match[1])`. -/
def parseWidth (s : List Char) : Except PyErr Fact :=
  match matchIntFloat (" has width of ".data) s with
  | none => .error .invalidConstraint
  | some ((g₁, g₂), _) =>
    match pyFloatL g₂ with
    | none => .error .valueError
    | some q => .ok (.width (digitsToNat g₁) q)

/-- The `height` branch of `parse_match`. -/
def parseHeight (s : List Char) : Except PyErr Fact :=
  match matchIntFloat (" has height of ".data) s with
  | none => .error .invalidConstraint
  | some ((g₁, g₂), _) =>
    match pyFloatL g₂ with
    | none => .error .valueError
    | some q => .ok (.height (digitsToNat g₁) q)

/-- The `position` branch of `parse_match`:
`int(match[0]), match[1], int(match[2])`. -/
def parsePos (s : List Char) : Except PyErr Fact :=
  match matchPos s with
  | none => .error .invalidConstraint
  | some ((g₁, side, g₃), _) =>
    .ok (.position (digitsToNat g₁) (String.mk side) (digitsToNat g₃))

/-- The `area` branch of `parse_match`. -/
def parseArea (s : List Char) : Except PyErr Fact :=
  match matchIntFloat (" has area of at least ".data) s with
  | none => .error .invalidConstraint
  | some ((g₁, g₂), _) =>
    match pyFloatL g₂ with
    | none => .error .valueError
    | some q => .ok (.area (digitsToNat g₁) q)

/-- The `ratio` branch of `parse_match`. -/
def parseRatio (s : List Char) : Except PyErr Fact :=
  match matchRatio s with
  | none => .error .invalidConstraint
  | some ((g₁, cmp, g₃), _) =>
    match pyFloatL g₃ with
    | none => .error .valueError
    | some q => .ok (.ratio (digitsToNat g₁) (String.mk cmp) q)

/-- The `horizontal_align` branch of `parse_match`. -/
def parseHA (s : List Char) : Except PyErr Fact :=
  match matchAlign [("top".data), ("center".data), ("bottom".data)]
      (" aligns horizontally with ".data) s with
  | none => .error .invalidConstraint
  | some ((a₁, g₁, a₂, g₂), _) =>
    .ok (.horizontalAlign (String.mk a₁) (digitsToNat g₁) (String.mk a₂) (digitsToNat g₂))

/-- The `vertical_align` branch of `parse_match`. -/
def parseVA (s : List Char) : Except PyErr Fact :=
  match matchAlign [("left".data), ("center".data), ("right".data)]
      (" aligns vertically with ".data) s with
  | none => .error .invalidConstraint
  | some ((a₁, g₁, a₂, g₂), _) =>
    .ok (.verticalAlign (String.mk a₁) (digitsToNat g₁) (String.mk a₂) (digitsToNat g₂))

/-- The `symmetry` branch of `parse_match`. -/
def parseSym (s : List Char) : Except PyErr Fact :=
  match matchSym s with
  | none => .error .invalidConstraint
  | some ((g₁, g₂, ax, g₃), _) =>
    match pyFloatL g₃ with
    | none => .error .valueError
    | some q => .ok (.symmetry (digitsToNat g₁) (digitsToNat g₂) (String.mk ax) q)

/-- The `similarity` branch of `parse_match`. -/
def parseSim (s : List Char) : Except PyErr Fact :=
  match matchSim s with
  | none => .error .invalidConstraint
  | some ((g₁, g₂, g₃), _) =>
    match pyFloatL g₂ with
    | none => .error .valueError
    | some q => .ok (.similarity (digitsToNat g₁) q (digitsToNat g₃))

/-- The `containment` branch of `parse_match`. -/
def parseCont (s : List Char) : Except PyErr Fact :=
  match matchCont s with
  | none => .error .invalidConstraint
  | some ((g₁, g₂, g₃), _) =>
    match pyFloatL g₂ with
    | none => .error .valueError
    | some q₁ =>
      match pyFloatL g₃ with
      | none => .error .valueError
      | some q₂ => .ok (.containment (digitsToNat g₁) q₁ q₂)

/-- Embedding of `parse_match` (`floor.py` lines 32-77): lower-case the kind
and the text, match the kind's registered pattern against the start of the
text (`re.match`), and convert the captured groups with `int()` / `float()`
per kind (the branch bodies above).  Unknown kinds fail with `keyError`, a
regex mismatch with `invalidConstraint`, a bad float literal with
`valueError`. -/
def parse_match (kind text : String) : Except PyErr Fact :=
  let k := pyLower kind
  let s := (pyLower text).data
  if k = "width" then parseWidth s
  else if k = "height" then parseHeight s
  else if k = "position" then parsePos s
  else if k = "area" then parseArea s
  else if k = "ratio" then parseRatio s
  else if k = "horizontal_align" then parseHA s
  else if k = "vertical_align" then parseVA s
  else if k = "symmetry" then parseSym s
  else if k = "similarity" then parseSim s
  else if k = "containment" then parseCont s
  else .error .keyError

/-- Edge expression of the `horizontal_align` branch of `parse_constraint`
(`match align: case "top"/"center"/"bottom"`); a keyword outside the three
cases leaves the Python local unbound, modelled by `nameError`. -/
def edgeH (al : String) (bx : ℕ) : Except PyErr LinExpr :=
  if al = "top" then .ok (.add (.va (.y bx)) (.va (.h bx)))
  else if al = "center" then .ok (.add (.va (.y bx)) (.divc (.va (.h bx)) 2))
  else if al = "bottom" then .ok (.va (.y bx))
  else .error .nameError

/-- Edge expression of the `vertical_align` branch of `parse_constraint`
(`match align: case "left"/"center"/"right"`). -/
def edgeV (al : String) (bx : ℕ) : Except PyErr LinExpr :=
  if al = "left" then .ok (.va (.x bx))
  else if al = "center" then .ok (.add (.va (.x bx)) (.divc (.va (.w bx)) 2))
  else if al = "right" then .ok (.add (.va (.x bx)) (.va (.w bx)))
  else .error .nameError

/-- The `model.addConstr` calls of each branch of `parse_constraint`
(`floor.py` lines 122-192), keyed by the parsed fact (the branch taken is
determined by the kind, which determines the fact's constructor). -/
def encodeFact (p : ℚ) : Fact → Except PyErr (List Constr)
  | .width box v => .ok [Constr.eqn (.va (.w box)) (.co v)]
  | .height box v => .ok [Constr.eqn (.va (.h box)) (.co v)]
  | .position b₁ side b₂ =>
    if side = "left" then
      .ok [Constr.le (.add (.add (.va (.x b₁)) (.va (.w b₁))) (.co p)) (.va (.x b₂))]
    else
      .ok [Constr.le (.add (.add (.va (.y b₁)) (.va (.h b₁))) (.co p)) (.va (.y b₂))]
  | .area box v => .ok [Constr.mulGe (.w box) (.h box) v]
  | .ratio box cmp v =>
    if cmp = "at least" then .ok [Constr.ge (.va (.w box)) (.smul v (.va (.h box)))]
    else .ok [Constr.le (.va (.w box)) (.smul v (.va (.h box)))]
  | .horizontalAlign a₁ b₁ a₂ b₂ =>
    match edgeH a₁ b₁ with
    | .error e => .error e
    | .ok e₁ =>
      match edgeH a₂ b₂ with
      | .error e => .error e
      | .ok e₂ => .ok [Constr.eqn e₁ e₂]
  | .verticalAlign a₁ b₁ a₂ b₂ =>
    match edgeV a₁ b₁ with
    | .error e => .error e
    | .ok e₁ =>
      match edgeV a₂ b₂ with
      | .error e => .error e
      | .ok e₂ => .ok [Constr.eqn e₁ e₂]
  | .symmetry b₁ b₂ ax v =>
    if ax = "x" then
      .ok [Constr.eqn (.sub (.co v) (.add (.va (.x b₁)) (.divc (.va (.w b₁)) 2)))
             (.sub (.add (.va (.x b₂)) (.divc (.va (.w b₂)) 2)) (.co v))]
    else
      .ok [Constr.eqn (.sub (.co v) (.add (.va (.y b₁)) (.divc (.va (.h b₁)) 2)))
             (.sub (.add (.va (.y b₂)) (.divc (.va (.h b₂)) 2)) (.co v))]
  | .similarity b₁ sc b₂ =>
    .ok [Constr.eqn (.va (.w b₁)) (.smul sc (.va (.w b₂))),
         Constr.eqn (.va (.h b₁)) (.smul sc (.va (.h b₂)))]
  | .containment box px py =>
    .ok [Constr.le (.va (.x box)) (.co px),
         Constr.le (.va (.y box)) (.co py),
         Constr.ge (.add (.va (.x box)) (.va (.w box))) (.co px),
         Constr.ge (.add (.va (.y box)) (.va (.h box))) (.co py)]

/-- Embedding of the inner `parse_constraint` of `solve` (lines 121-194):
dispatch on the raw (not lower-cased) kind over the same ten names as the
`elif` chain, call `parse_match`, and add the branch's constraints; any other
kind raises (`invalidKind`).  Returns the list of constraints added. -/
def parse_constraint (p : ℚ) (kind text : String) : Except PyErr (List Constr) :=
  if kind ∈ kinds10 then
    match parse_match kind text with
    | .error e => .error e
    | .ok f => encodeFact p f
  else .error .invalidKind

/-- Append constraints to a model (`model.addConstr` calls, in order). -/
def addConstrs (m : GModel) (cs : List Constr) : GModel :=
  { m with constrs := m.constrs ++ cs }

/-- The loop `for constraint_type, constraint in constraints:
parse_constraint(...)` (lines 197-198): each user constraint is compiled in
order onto the model; the first failure aborts the call. -/
def compileList (p : ℚ) : List (String × String) → GModel → Except PyErr GModel
  | [], m => .ok m
  | (k, txt) :: rest, m =>
    match parse_constraint p k txt with
    | .error e => .error e
    | .ok cs => compileList p rest (addConstrs m cs)

/-- The whole model-building phase of `solve`: base model (variables,
objective, bounding and pairwise constraints) then the user constraints. -/
def compileModel (N : ℕ) (p : ℚ) (cons : List (String × String)) :
    Except PyErr GModel :=
  compileList p cons (baseModel N p)

/-- Solver statuses of the backend contract relevant to `solve`'s epilogue
(`GRB.OPTIMAL`, `GRB.INFEASIBLE`, the feasible-at-time-limit status, and the
remaining non-optimal outcomes). -/
inductive GStatus where
  | optimal : GStatus
  | infeasible : GStatus
  | timeLimit : GStatus
  | unbounded : GStatus
  | interrupted : GStatus
  deriving DecidableEq, Repr

/-- The 8-tuple `solve` returns (lines 211-220): objective value, `W.X`,
`H.X`, the four per-box value lists `x, y, w, h`, and the solver status. -/
abbrev SolveOut :=
  ℚ × ℚ × ℚ × List ℚ × List ℚ × List ℚ × List ℚ × GStatus

/-- The value extraction of `solve` (lines 211-220): objective value, the two
scalars, the four lists read over `range(N)` in source order `x, y, w, h`,
and the status. -/
def extractOut (N : ℕ) (m : GModel) (a : Var → ℚ) (st : GStatus) : SolveOut :=
  (evalE a m.objective, a .W, a .H,
   (natRange 0 N).map (fun i => a (.x i)),
   (natRange 0 N).map (fun i => a (.y i)),
   (natRange 0 N).map (fun i => a (.w i)),
   (natRange 0 N).map (fun i => a (.h i)), st)

/-- The epilogue of `solve` after `model.optimize()` (lines 204-220): raise
on `INFEASIBLE`; otherwise print the non-fatal warning `"Model is not
optimal"` exactly when the status is not `OPTIMAL` (the returned `Bool`) and
extract the result tuple. -/
def postSolve (N : ℕ) (m : GModel) (st : GStatus) (a : Var → ℚ) :
    Except PyErr (Bool × SolveOut) :=
  if st = .infeasible then .error .infeasibleError
  else .ok (st != .optimal, extractOut N m a st)

/-- Embedding of `solve(N, p, constraints, timeout)`: build and compile the
model, hand it with the time limit to the opaque backend `oracle` (the
`model.optimize()` call, which reports a status and variable values), and run
the extraction epilogue. -/
def solve (N : ℕ) (p : ℚ) (cons : List (String × String)) (timeout : ℚ)
    (oracle : GModel → ℚ → GStatus × (Var → ℚ)) : Except PyErr SolveOut :=
  match compileModel N p cons with
  | .error e => .error e
  | .ok m =>
    match postSolve N m (oracle m timeout).1 (oracle m timeout).2 with
    | .error e => .error e
    | .ok pair => .ok pair.2

/-- Membership of the point `(u, v)` in the open interior of box `i`'s
rectangle under the assignment `a`. -/
def inInterior (a : Var → ℚ) (i : ℕ) (u v : ℚ) : Prop :=
  a (.x i) < u ∧ u < a (.x i) + a (.w i) ∧ a (.y i) < v ∧ v < a (.y i) + a (.h i)

/-- Token `<int>` of the spec's literal grammar: a nonempty digit string. -/
def digitsTok (g : List Char) : Prop :=
  g ≠ [] ∧ ∀ c ∈ g, c.isDigit = true

/-- Token `<float>` of the spec's literal grammar: a nonempty string over
`[-+e\d.]`. -/
def floatTok (g : List Char) : Prop :=
  g ≠ [] ∧ ∀ c ∈ g, floatChar c = true

instance digitsTokDec (g : List Char) : Decidable (digitsTok g) :=
  inferInstanceAs (Decidable (_ ∧ _))

instance floatTokDec (g : List Char) : Decidable (floatTok g) :=
  inferInstanceAs (Decidable (_ ∧ _))

/-- Specification-side definition, from the literal grammar of spec §6: the
language of each constraint kind, as the set of whole strings obtained by
filling the kind's grammar line with its tokens.  `kindGrammar kind s` holds
iff the (lower-case) string `s` belongs to the grammar registered for
`kind`. -/
def kindGrammar (kind : String) (s : List Char) : Prop :=
  if kind = "width" then
    ∃ g₁ g₂, digitsTok g₁ ∧ floatTok g₂ ∧
      s = ("box ".data) ++ g₁ ++ (" has width of ".data) ++ g₂
  else if kind = "height" then
    ∃ g₁ g₂, digitsTok g₁ ∧ floatTok g₂ ∧
      s = ("box ".data) ++ g₁ ++ (" has height of ".data) ++ g₂
  else if kind = "position" then
    ∃ g₁ side g₃, digitsTok g₁ ∧ side ∈ [("left".data), ("bottom".data)] ∧ digitsTok g₃ ∧
      s = ("box ".data) ++ g₁ ++ (" is to the ".data) ++ side ++ (" of box ".data) ++ g₃
  else if kind = "area" then
    ∃ g₁ g₂, digitsTok g₁ ∧ floatTok g₂ ∧
      s = ("box ".data) ++ g₁ ++ (" has area of at least ".data) ++ g₂
  else if kind = "ratio" then
    ∃ g₁ cmp g₃, digitsTok g₁ ∧ cmp ∈ [("at least".data), ("at most".data)] ∧ floatTok g₃ ∧
      s = ("box ".data) ++ g₁ ++ (" has aspect ratio of ".data) ++ cmp ++ (" ".data) ++ g₃
  else if kind = "horizontal_align" then
    ∃ a₁ g₁ a₂ g₂, a₁ ∈ [("top".data), ("center".data), ("bottom".data)] ∧ digitsTok g₁ ∧
      a₂ ∈ [("top".data), ("center".data), ("bottom".data)] ∧ digitsTok g₂ ∧
      s = a₁ ++ (" of box ".data) ++ g₁ ++ (" aligns horizontally with ".data) ++ a₂ ++
        (" of box ".data) ++ g₂
  else if kind = "vertical_align" then
    ∃ a₁ g₁ a₂ g₂, a₁ ∈ [("left".data), ("center".data), ("right".data)] ∧ digitsTok g₁ ∧
      a₂ ∈ [("left".data), ("center".data), ("right".data)] ∧ digitsTok g₂ ∧
      s = a₁ ++ (" of box ".data) ++ g₁ ++ (" aligns vertically with ".data) ++ a₂ ++
        (" of box ".data) ++ g₂
  else if kind = "symmetry" then
    ∃ g₁ g₂ ax g₃, digitsTok g₁ ∧ digitsTok g₂ ∧ ax ∈ [("x".data), ("y".data)] ∧ floatTok g₃ ∧
      s = ("box ".data) ++ g₁ ++ (" and box ".data) ++ g₂ ++
        (" are symmetric through axis ".data) ++ ax ++ ("=".data) ++ g₃
  else if kind = "similarity" then
    ∃ g₁ g₂ g₃, digitsTok g₁ ∧ floatTok g₂ ∧ digitsTok g₃ ∧
      s = ("box ".data) ++ g₁ ++ (" is ".data) ++ g₂ ++
        ("-scaled translate of box ".data) ++ g₃
  else if kind = "containment" then
    ∃ g₁ g₂ g₃, digitsTok g₁ ∧ floatTok g₂ ∧ floatTok g₃ ∧
      s = ("box ".data) ++ g₁ ++ (" contains a point (".data) ++ g₂ ++
        (",".data) ++ g₃ ++ (")".data)
  else False

/-- Specification-side y-edge resolution of spec §4.3: `top → y+h`,
`center → y+h/2`, `bottom → y`. -/
def specEdgeY (kw : String) (bx : ℕ) : Option LinExpr :=
  if kw = "top" then some (.add (.va (.y bx)) (.va (.h bx)))
  else if kw = "center" then some (.add (.va (.y bx)) (.divc (.va (.h bx)) 2))
  else if kw = "bottom" then some (.va (.y bx))
  else none

/-- Specification-side x-edge resolution of spec §4.3: `left → x`,
`center → x+w/2`, `right → x+w`. -/
def specEdgeX (kw : String) (bx : ℕ) : Option LinExpr :=
  if kw = "left" then some (.va (.x bx))
  else if kw = "center" then some (.add (.va (.x bx)) (.divc (.va (.w bx)) 2))
  else if kw = "right" then some (.add (.va (.x bx)) (.va (.w bx)))
  else none

/-- Specification-side definition: the constraint table of spec §4.3, giving
for each parsed fact the constraint(s) the compiler must add (`none` where
the table's keyword enumeration does not apply). -/
def specTable43 (p : ℚ) : Fact → Option (List Constr)
  | .width box v => some [Constr.eqn (.va (.w box)) (.co v)]
  | .height box v => some [Constr.eqn (.va (.h box)) (.co v)]
  | .position b₁ side b₂ =>
    if side = "left" then
      some [Constr.le (.add (.add (.va (.x b₁)) (.va (.w b₁))) (.co p)) (.va (.x b₂))]
    else if side = "bottom" then
      some [Constr.le (.add (.add (.va (.y b₁)) (.va (.h b₁))) (.co p)) (.va (.y b₂))]
    else none
  | .area box v => some [Constr.mulGe (.w box) (.h box) v]
  | .ratio box cmp v =>
    if cmp = "at least" then some [Constr.ge (.va (.w box)) (.smul v (.va (.h box)))]
    else if cmp = "at most" then some [Constr.le (.va (.w box)) (.smul v (.va (.h box)))]
    else none
  | .horizontalAlign a₁ b₁ a₂ b₂ =>
    match specEdgeY a₁ b₁, specEdgeY a₂ b₂ with
    | some e₁, some e₂ => some [Constr.eqn e₁ e₂]
    | _, _ => none
  | .verticalAlign a₁ b₁ a₂ b₂ =>
    match specEdgeX a₁ b₁, specEdgeX a₂ b₂ with
    | some e₁, some e₂ => some [Constr.eqn e₁ e₂]
    | _, _ => none
  | .symmetry b₁ b₂ ax v =>
    if ax = "x" then
      some [Constr.eqn (.sub (.co v) (.add (.va (.x b₁)) (.divc (.va (.w b₁)) 2)))
              (.sub (.add (.va (.x b₂)) (.divc (.va (.w b₂)) 2)) (.co v))]
    else if ax = "y" then
      some [Constr.eqn (.sub (.co v) (.add (.va (.y b₁)) (.divc (.va (.h b₁)) 2)))
              (.sub (.add (.va (.y b₂)) (.divc (.va (.h b₂)) 2)) (.co v))]
    else none
  | .similarity b₁ sc b₂ =>
    some [Constr.eqn (.va (.w b₁)) (.smul sc (.va (.w b₂))),
          Constr.eqn (.va (.h b₁)) (.smul sc (.va (.h b₂)))]
  | .containment box px py =>
    some [Constr.le (.va (.x box)) (.co px),
          Constr.le (.va (.y box)) (.co py),
          Constr.ge (.add (.va (.x box)) (.va (.w box))) (.co px),
          Constr.ge (.add (.va (.y box)) (.va (.h box))) (.co py)]

/-- Success projection of an `Except` result. -/
def okOf : Except PyErr α → Option α
  | .ok a => some a
  | .error _ => none

/-- Failure test of an `Except` result. -/
def errored : Except PyErr α → Bool
  | .ok _ => false
  | .error _ => true

/-- Interiors of the rectangles of boxes `i` and `j` under assignment `a`
share no point. -/
def interiorsDisjoint (a : Var → ℚ) (i j : ℕ) : Prop :=
  ∀ u v : ℚ, ¬(inInterior a i u v ∧ inInterior a j u v)

/-- Variables occurring in a linear expression. -/
def exprVars : LinExpr → List Var
  | .co _ => []
  | .va v => [v]
  | .add e₁ e₂ => exprVars e₁ ++ exprVars e₂
  | .sub e₁ e₂ => exprVars e₁ ++ exprVars e₂
  | .smul _ e => exprVars e
  | .divc e _ => exprVars e

/-- Variables occurring in a constraint (for `impl`, including the indicator
variable itself). -/
def constrVars : Constr → List Var
  | .le e₁ e₂ => exprVars e₁ ++ exprVars e₂
  | .ge e₁ e₂ => exprVars e₁ ++ exprVars e₂
  | .eqn e₁ e₂ => exprVars e₁ ++ exprVars e₂
  | .impl v e₁ e₂ => v :: (exprVars e₁ ++ exprVars e₂)
  | .mulGe v₁ v₂ _ => [v₁, v₂]

/-- Test for a direction-indicator variable of the pair `(i, j)`. -/
def isIndFor (i j : ℕ) : Var → Bool
  | .l i' j' => i == i' && j == j'
  | .r i' j' => i == i' && j == j'
  | .b i' j' => i == i' && j == j'
  | .t i' j' => i == i' && j == j'
  | _ => false

/-- Test for any direction-indicator variable. -/
def isInd : Var → Bool
  | .l _ _ => true
  | .r _ _ => true
  | .b _ _ => true
  | .t _ _ => true
  | _ => false

/-- A constraint mentions an indicator variable of the pair `(i, j)`. -/
def mentionsPair (i j : ℕ) (c : Constr) : Bool :=
  (constrVars c).any (isIndFor i j)

/-- A constraint mentions no indicator variable at all (true of every
user-compiled constraint). -/
def indFree (c : Constr) : Bool :=
  (constrVars c).all fun v => !isInd v

theorem dropLit_self (lit s : List Char) : dropLit lit (lit ++ s) = some s := by
  induction lit with
  | nil => rfl
  | cons c rest ih => simp [dropLit, ih]

theorem dropLit_sound {lit : List Char} :
    ∀ {s r : List Char}, dropLit lit s = some r → s = lit ++ r := by
  induction lit with
  | nil =>
    intro s r h
    simp only [dropLit, Option.some.injEq] at h
    simp [h]
  | cons c lit ih =>
    intro s r h
    cases s with
    | nil => simp [dropLit] at h
    | cons d s =>
      simp only [dropLit] at h
      split at h
      case isTrue hc => subst hc; rw [List.cons_append, ih h]
      case isFalse => exact absurd h (by simp)

theorem munch_sound {pr : Char → Bool} :
    ∀ {s g r : List Char}, munch pr s = (g, r) →
      s = g ++ r ∧ (∀ c ∈ g, pr c = true) := by
  intro s
  induction s with
  | nil =>
    intro g r h
    simp only [munch, Prod.mk.injEq] at h
    simp [← h.1, ← h.2]
  | cons c s ih =>
    intro g r h
    rcases hm : munch pr s with ⟨g', r'⟩
    simp only [munch, hm] at h
    split at h
    case isTrue hp =>
      simp only [Prod.mk.injEq] at h
      obtain ⟨hs, hall⟩ := ih hm
      refine ⟨?_, ?_⟩
      · rw [← h.1, ← h.2, List.cons_append, ← hs]
      · intro d hd
        rw [← h.1] at hd
        rcases List.mem_cons.mp hd with rfl | hd'
        · exact hp
        · exact hall d hd'
    case isFalse hp =>
      simp only [Prod.mk.injEq] at h
      exact ⟨by rw [← h.1, ← h.2]; rfl, by rw [← h.1]; intro d hd; simp at hd⟩

/-- Head condition under which a greedy munch stops exactly at a group
boundary. -/
def headNot (pr : Char → Bool) : List Char → Prop
  | [] => True
  | c :: _ => pr c = false

theorem munch_exact {pr : Char → Bool} :
    ∀ {g : List Char} (r : List Char), (∀ c ∈ g, pr c = true) → headNot pr r →
      munch pr (g ++ r) = (g, r) := by
  intro g
  induction g with
  | nil =>
    intro r _ hr
    cases r with
    | nil => rfl
    | cons c r' => simp only [headNot] at hr; simp [munch, hr]
  | cons c g ih =>
    intro r hall hr
    have hc : pr c = true := hall c (by simp)
    have := ih r (fun d hd => hall d (by simp [hd])) hr
    simp [munch, hc, this]

theorem matchAlt_sound :
    ∀ {alts : List (List Char)} {s g r : List Char},
      matchAlt alts s = some (g, r) → g ∈ alts ∧ s = g ++ r := by
  intro alts
  induction alts with
  | nil => intro s g r h; simp [matchAlt] at h
  | cons alt alts ih =>
    intro s g r h
    rcases hd : dropLit alt s with _ | rest
    · rw [matchAlt, hd] at h
      obtain ⟨hmem, hs⟩ := ih h
      exact ⟨by simp [hmem], hs⟩
    · rw [matchAlt, hd] at h
      simp only [Option.some.injEq, Prod.mk.injEq] at h
      exact ⟨by simp [← h.1], by rw [← h.1, ← h.2]; exact dropLit_sound hd⟩

theorem munchPlus_sound {pr : Char → Bool} {s g r : List Char}
    (h : munchPlus pr s = some (g, r)) :
    s = g ++ r ∧ g ≠ [] ∧ (∀ c ∈ g, pr c = true) := by
  rcases hm : munch pr s with ⟨g', r'⟩
  rw [munchPlus, hm] at h
  split at h
  · exact absurd h (by simp)
  case isFalse hne =>
    simp only [Option.some.injEq, Prod.mk.injEq] at h
    obtain ⟨hs, hall⟩ := munch_sound hm
    exact ⟨by rw [← h.1, ← h.2, ← hs], by rw [← h.1]; exact hne, by rw [← h.1]; exact hall⟩

theorem munchPlus_exact {pr : Char → Bool} {g : List Char} (r : List Char)
    (hne : g ≠ []) (hall : ∀ c ∈ g, pr c = true) (hr : headNot pr r) :
    munchPlus pr (g ++ r) = some (g, r) := by
  rw [munchPlus, munch_exact r hall hr]
  simp [hne]

theorem mem_natRange : ∀ {n s i : ℕ}, i ∈ natRange s n ↔ s ≤ i ∧ i < s + n := by
  intro n
  induction n with
  | zero => intro s i; simp [natRange]
  | succ n ih =>
    intro s i
    simp only [natRange, List.mem_cons, ih]
    omega

theorem natRange_length : ∀ (n s : ℕ), (natRange s n).length = n := by
  intro n
  induction n with
  | zero => intro s; rfl
  | succ n ih => intro s; simp [natRange, ih]

theorem natRange_getElem? : ∀ {n : ℕ} (s : ℕ) {i : ℕ}, i < n →
    (natRange s n)[i]? = some (s + i) := by
  intro n
  induction n with
  | zero => intro s i h; omega
  | succ n ih =>
    intro s i h
    cases i with
    | zero => simp [natRange]
    | succ i =>
      have := ih (s + 1) (by omega : i < n)
      simp only [natRange, List.getElem?_cons_succ, this]
      congr 1
      omega

theorem mem_concatMap {f : α → List β} :
    ∀ {L : List α} {b : β}, b ∈ concatMap f L ↔ ∃ a ∈ L, b ∈ f a := by
  intro L
  induction L with
  | nil => intro b; simp [concatMap]
  | cons a L ih => intro b; simp [concatMap, ih]

theorem filter_concatMap_nil {q : β → Bool} {f : α → List β} :
    ∀ {L : List α}, (∀ a ∈ L, (f a).filter q = []) → (concatMap f L).filter q = [] := by
  intro L
  induction L with
  | nil => intro _; rfl
  | cons a L ih =>
    intro h
    rw [concatMap, List.filter_append, h a (by simp), ih fun a' ha' => h a' (by simp [ha'])]
    rfl

theorem filter_concatMap_single {q : β → Bool} {f : ℕ → List β} :
    ∀ (n s i : ℕ), s ≤ i → i < s + n →
      (∀ k, k ≠ i → (f k).filter q = []) →
      (concatMap f (natRange s n)).filter q = (f i).filter q := by
  intro n
  induction n with
  | zero => intro s i h₁ h₂; omega
  | succ n ih =>
    intro s i h₁ h₂ hk
    rw [natRange, concatMap, List.filter_append]
    rcases Nat.eq_or_lt_of_le h₁ with rfl | hlt
    · rw [filter_concatMap_nil fun a ha => hk a (by rw [mem_natRange] at ha; omega),
        List.append_nil]
    · rw [hk s (by omega), List.nil_append]
      exact ih (s + 1) i hlt (by omega) hk

instance exceptDecEq {ε α : Type} [DecidableEq ε] [DecidableEq α] :
    DecidableEq (Except ε α)
  | .ok a, .ok b => decidable_of_iff (a = b) (by simp)
  | .ok _, .error _ => isFalse (by simp)
  | .error _, .ok _ => isFalse (by simp)
  | .error e, .error f => decidable_of_iff (e = f) (by simp)

instance holdsDec (a : Var → ℚ) : (c : Constr) → Decidable (holds a c)
  | .le e₁ e₂ => inferInstanceAs (Decidable (evalE a e₁ ≤ evalE a e₂))
  | .ge e₁ e₂ => inferInstanceAs (Decidable (evalE a e₁ ≥ evalE a e₂))
  | .eqn e₁ e₂ => inferInstanceAs (Decidable (evalE a e₁ = evalE a e₂))
  | .impl v e₁ e₂ => inferInstanceAs (Decidable (a v = 1 → evalE a e₁ ≤ evalE a e₂))
  | .mulGe v₁ v₂ q => inferInstanceAs (Decidable (a v₁ * a v₂ ≥ q))

instance varOkDec (a : Var → ℚ) : (vt : Var × VType) → Decidable (varOk a vt)
  | (v, .cont) => inferInstanceAs (Decidable (0 ≤ a v))
  | (v, .binary) => inferInstanceAs (Decidable (a v = 0 ∨ a v = 1))

instance feasibleDec (m : GModel) (a : Var → ℚ) : Decidable (feasible m a) :=
  inferInstanceAs (Decidable (_ ∧ _))

/-- Fixed sample assignment used by concrete instantiations below: two unit
boxes side by side, with the `l` indicator of the pair `(0, 1)` set. -/
def asgnC1 : Var → ℚ
  | .x 1 => 1
  | .w 0 => 1
  | .w 1 => 1
  | .h 0 => 1
  | .h 1 => 1
  | .l 0 1 => 1
  | _ => 0

/-- C1: for any assignment of the geometry variables and of the four binary
indicators `l, r, b, t` of a pair `(i, j)` that satisfies the seven pairwise
constraints `solve` adds for that pair (the four indicator implications with
padding `p ≥ 0`, `l+r ≤ 1`, `b+t ≤ 1`, `l+r+b+t ≥ 1`), the interiors of the
two rectangles do not intersect: the disjunctive encoding is sufficient for
pairwise non-overlap. -/
theorem c1_pair_encoding_sufficient (a : Var → ℚ) (p : ℚ) (i j : ℕ)
    (hp : 0 ≤ p)
    (hbin : ∀ k ∈ [Var.l i j, Var.r i j, Var.b i j, Var.t i j], a k = 0 ∨ a k = 1)
    (hc : ∀ c ∈ pairConstrsFor p i j, holds a c) :
    interiorsDisjoint a i j := by
  simp only [List.mem_cons, List.not_mem_nil, or_false, forall_eq_or_imp, forall_eq] at hbin
  obtain ⟨bl, br, bb, bt⟩ := hbin
  simp only [pairConstrsFor, List.mem_cons, List.not_mem_nil, or_false, forall_eq_or_imp,
    forall_eq] at hc
  obtain ⟨h₁, h₂, h₃, h₄, h₅, h₆, h₇⟩ := hc
  simp only [holds, evalE] at h₁ h₂ h₃ h₄ h₅ h₆ h₇
  have hone : a (Var.l i j) = 1 ∨ a (Var.r i j) = 1 ∨ a (Var.b i j) = 1 ∨
      a (Var.t i j) = 1 := by
    by_contra hno
    push_neg at hno
    obtain ⟨n₁, n₂, n₃, n₄⟩ := hno
    have z₁ : a (Var.l i j) = 0 := bl.resolve_right n₁
    have z₂ : a (Var.r i j) = 0 := br.resolve_right n₂
    have z₃ : a (Var.b i j) = 0 := bb.resolve_right n₃
    have z₄ : a (Var.t i j) = 0 := bt.resolve_right n₄
    rw [z₁, z₂, z₃, z₄] at h₇
    norm_num at h₇
  intro u v huv
  obtain ⟨⟨hix, hix', hiy, hiy'⟩, ⟨hjx, hjx', hjy, hjy'⟩⟩ := huv
  rcases hone with h | h | h | h
  · have := h₁ h; linarith
  · have := h₂ h; linarith
  · have := h₃ h; linarith
  · have := h₄ h; linarith

/-- Witness for C1: the sample assignment `asgnC1` with `p = 0` and the pair
`(0, 1)` satisfies all hypotheses, and the interiors are disjoint. -/
theorem c1_pair_encoding_sufficient_witness : interiorsDisjoint asgnC1 0 1 := by
  have hb : ∀ k ∈ [Var.l 0 1, Var.r 0 1, Var.b 0 1, Var.t 0 1],
      asgnC1 k = 0 ∨ asgnC1 k = 1 := by decide
  have hc : ∀ c ∈ pairConstrsFor 0 0 1, holds asgnC1 c := by
    intro c hcm
    fin_cases hcm <;> norm_num [holds, evalE, asgnC1]
  exact c1_pair_encoding_sufficient asgnC1 0 0 1 (le_refl 0) hb hc

/-- C7: after the backend reports a status, `solve`'s epilogue raises the
fatal infeasibility error on `Infeasible`; on the feasible-at-time-limit
status it emits the non-fatal warning (the `true` flag) and still returns
the extracted bundle `(perimeter, W, H, x, y, w, h)` with that status; on
`Optimal` it extracts directly, with no warning. -/
theorem c7_status_extraction (N : ℕ) (m : GModel) (a : Var → ℚ) :
    postSolve N m .infeasible a = .error .infeasibleError ∧
    postSolve N m .timeLimit a =
      .ok (true, (evalE a m.objective, a .W, a .H,
        (natRange 0 N).map (fun i => a (.x i)),
        (natRange 0 N).map (fun i => a (.y i)),
        (natRange 0 N).map (fun i => a (.w i)),
        (natRange 0 N).map (fun i => a (.h i)), GStatus.timeLimit)) ∧
    postSolve N m .optimal a =
      .ok (false, (evalE a m.objective, a .W, a .H,
        (natRange 0 N).map (fun i => a (.x i)),
        (natRange 0 N).map (fun i => a (.y i)),
        (natRange 0 N).map (fun i => a (.w i)),
        (natRange 0 N).map (fun i => a (.h i)), GStatus.optimal)) :=
  ⟨rfl, rfl, rfl⟩

/-- Constant backend oracle used by concrete instantiations: reports
`Optimal` with the all-zero assignment. -/
def oracleZ : GModel → ℚ → GStatus × (Var → ℚ) :=
  fun _ _ => (GStatus.optimal, fun _ => 0)

/-- C10: whenever `solve` returns normally, the returned value is the
8-tuple `(perimeter, W, H, x, y, w, h, status)` in exactly that order, read
from the solved assignment; each of the four per-box lists has length `N`,
and its entry `i` is the solved value for box `i`.  (The embedding is pure:
the source reads, and never mutates, the caller's constraint list.) -/
theorem c10_result_shape (N : ℕ) (p : ℚ) (cons : List (String × String)) (timeout : ℚ)
    (oracle : GModel → ℚ → GStatus × (Var → ℚ)) (m : GModel) (st : GStatus) (a : Var → ℚ)
    (hm : compileModel N p cons = .ok m)
    (ho : oracle m timeout = (st, a))
    (hst : st ≠ .infeasible) :
    solve N p cons timeout oracle =
      .ok (evalE a m.objective, a .W, a .H,
        (natRange 0 N).map (fun i => a (.x i)),
        (natRange 0 N).map (fun i => a (.y i)),
        (natRange 0 N).map (fun i => a (.w i)),
        (natRange 0 N).map (fun i => a (.h i)), st) ∧
    ((natRange 0 N).map (fun i => a (.x i))).length = N ∧
    ((natRange 0 N).map (fun i => a (.y i))).length = N ∧
    ((natRange 0 N).map (fun i => a (.w i))).length = N ∧
    ((natRange 0 N).map (fun i => a (.h i))).length = N ∧
    ∀ i, i < N →
      ((natRange 0 N).map (fun i => a (.x i)))[i]? = some (a (.x i)) ∧
      ((natRange 0 N).map (fun i => a (.y i)))[i]? = some (a (.y i)) ∧
      ((natRange 0 N).map (fun i => a (.w i)))[i]? = some (a (.w i)) ∧
      ((natRange 0 N).map (fun i => a (.h i)))[i]? = some (a (.h i)) := by
  have hget : ∀ i, i < N → (natRange 0 N)[i]? = some i := by
    intro i hi
    have := @natRange_getElem? N 0 i hi
    simpa using this
  refine ⟨?_, ?_, ?_, ?_, ?_, ?_⟩
  · simp only [solve, hm, ho, postSolve, extractOut, if_neg hst]
  · simp [natRange_length]
  · simp [natRange_length]
  · simp [natRange_length]
  · simp [natRange_length]
  · intro i hi
    refine ⟨?_, ?_, ?_, ?_⟩ <;> rw [List.getElem?_map, hget i hi] <;> rfl

/-- Witness for C10: a one-box call with the constant optimal oracle returns
the fully evaluated 8-tuple. -/
theorem c10_result_shape_witness :
    solve 1 0 [] 60 oracleZ = .ok (0, 0, 0, [0], [0], [0], [0], GStatus.optimal) := by
  have h := (c10_result_shape 1 0 [] 60 oracleZ (baseModel 1 0) .optimal (fun _ => 0)
    rfl rfl (by decide)).1
  exact h.trans (by norm_num [evalE, baseModel, natRange])

theorem compileList_err {p : ℚ} :
    ∀ {cons : List (String × String)} (m : GModel),
      (∃ kt ∈ cons, errored (parse_constraint p kt.1 kt.2) = true) →
      ∃ e, compileList p cons m = .error e := by
  intro cons
  induction cons with
  | nil => intro m h; simp at h
  | cons kt rest ih =>
    intro m h
    rcases kt with ⟨k, txt⟩
    rcases hpc : parse_constraint p k txt with e | cs
    · exact ⟨e, by rw [compileList, hpc]⟩
    · obtain ⟨kt', hmem, herr⟩ := h
      rcases List.mem_cons.mp hmem with rfl | hmem'
      · rw [hpc] at herr; simp [errored] at herr
      · rw [compileList, hpc]
        exact ih (addConstrs m cs) ⟨kt', hmem', herr⟩

theorem solve_err_of_bad {N : ℕ} {p : ℚ} {cons : List (String × String)} {timeout : ℚ}
    (hbad : ∃ kt ∈ cons, errored (parse_constraint p kt.1 kt.2) = true) :
    errored (compileModel N p cons) = true ∧
    (∀ oracle, errored (solve N p cons timeout oracle) = true) ∧
    ∀ o₁ o₂, solve N p cons timeout o₁ = solve N p cons timeout o₂ := by
  obtain ⟨e, he⟩ := compileList_err (baseModel N p) hbad
  have hcm : compileModel N p cons = .error e := he
  refine ⟨by rw [hcm]; rfl, ?_, ?_⟩
  · intro oracle
    simp only [solve, hcm]
    rfl
  · intro o₁ o₂
    simp only [solve, hcm]

/-- C8: if any constraint in the input sequence fails to parse, `solve`
errors during compilation: the compile step itself errors, the whole call
errors for every backend oracle, and the outcome does not depend on the
oracle at all — the backend's optimize step is never consulted. -/
theorem c8_fail_fast (N : ℕ) (p : ℚ) (cons : List (String × String)) (timeout : ℚ)
    (hbad : ∃ kt ∈ cons, errored (parse_constraint p kt.1 kt.2) = true) :
    errored (compileModel N p cons) = true ∧
    (∀ oracle, errored (solve N p cons timeout oracle) = true) ∧
    ∀ o₁ o₂, solve N p cons timeout o₁ = solve N p cons timeout o₂ :=
  solve_err_of_bad hbad

/-- Witness for C8: a single malformed `width` constraint makes the compile
step fail and the whole `solve` call fail under the sample oracle. -/
theorem c8_fail_fast_witness :
    errored (parse_constraint 0 "width" "garbage") = true ∧
    errored (solve 1 0 [("width", "garbage")] 60 oracleZ) = true :=
  ⟨by decide,
    (c8_fail_fast 1 0 [("width", "garbage")] 60
      ⟨("width", "garbage"), by simp, by decide⟩).2.1 oracleZ⟩

/-- C9: with zero boxes and no constraints the model's optimal value is 0
(the zero assignment is feasible with objective 0, and every feasible
assignment has objective at least 0), and for any backend report that is
feasible and optimal for this model, `solve` returns perimeter 0, `W = 0`,
`H = 0` and four empty per-box lists. -/
theorem c9_zero_boxes (p timeout : ℚ) (oracle : GModel → ℚ → GStatus × (Var → ℚ))
    (st : GStatus) (a : Var → ℚ)
    (ho : oracle (baseModel 0 p) timeout = (st, a))
    (hf : feasible (baseModel 0 p) a)
    (hopt : ∀ a', feasible (baseModel 0 p) a' →
      evalE a (baseModel 0 p).objective ≤ evalE a' (baseModel 0 p).objective)
    (hst : st ≠ .infeasible) :
    feasible (baseModel 0 p) (fun _ => 0) ∧
    evalE (fun _ => 0) (baseModel 0 p).objective = 0 ∧
    a .W = 0 ∧ a .H = 0 ∧
    solve 0 p [] timeout oracle = .ok (0, 0, 0, [], [], [], [], st) := by
  have hzero : feasible (baseModel 0 p) (fun _ => 0) := by
    constructor
    · intro vt hvt
      simp only [baseModel, baseVars, natRange, concatMap, List.map_nil, List.append_nil,
        List.mem_cons, List.not_mem_nil, or_false] at hvt
      rcases hvt with rfl | rfl <;> exact le_refl 0
    · intro c hc
      simp [baseModel, boundConstrs, pairConstrs, natRange, concatMap] at hc
  have hz : evalE (fun _ => 0) (baseModel 0 p).objective = 0 := by
    norm_num [baseModel, evalE]
  have haW : 0 ≤ a .W :=
    hf.1 (Var.W, VType.cont) (by simp [baseModel, baseVars, natRange, concatMap])
  have haH : 0 ≤ a .H :=
    hf.1 (Var.H, VType.cont) (by simp [baseModel, baseVars, natRange, concatMap])
  have hoe : evalE a (baseModel 0 p).objective = 2 * (a .W + a .H) := by
    simp [baseModel, evalE]
  have hle := hopt _ hzero
  rw [hz, hoe] at hle
  have hW0 : a .W = 0 := by linarith
  have hH0 : a .H = 0 := by linarith
  refine ⟨hzero, hz, hW0, hH0, ?_⟩
  have hcm : compileModel 0 p [] = .ok (baseModel 0 p) := rfl
  simp only [solve, hcm, ho, postSolve, extractOut, if_neg hst]
  rw [hoe, hW0, hH0]
  norm_num [natRange]

/-- Witness for C9: the constant optimal oracle with the zero assignment
satisfies all hypotheses at `p = 0`. -/
theorem c9_zero_boxes_witness :
    feasible (baseModel 0 0) (fun _ => 0) ∧
    solve 0 0 [] 60 oracleZ = .ok (0, 0, 0, [], [], [], [], GStatus.optimal) := by
  have hf : feasible (baseModel 0 0) (fun _ => 0) := by
    constructor
    · intro vt hvt
      simp only [baseModel, baseVars, natRange, concatMap, List.map_nil, List.append_nil,
        List.mem_cons, List.not_mem_nil, or_false] at hvt
      rcases hvt with rfl | rfl <;> exact le_refl 0
    · intro c hc
      simp [baseModel, boundConstrs, pairConstrs, natRange, concatMap] at hc
  have hopt : ∀ a', feasible (baseModel 0 0) a' →
      evalE (fun _ => 0) (baseModel 0 0).objective ≤ evalE a' (baseModel 0 0).objective := by
    intro a' hf'
    have h1 : 0 ≤ a' .W :=
      hf'.1 (Var.W, VType.cont) (by simp [baseModel, baseVars, natRange, concatMap])
    have h2 : 0 ≤ a' .H :=
      hf'.1 (Var.H, VType.cont) (by simp [baseModel, baseVars, natRange, concatMap])
    simp only [baseModel, evalE]
    norm_num
    linarith
  have h := c9_zero_boxes 0 60 oracleZ .optimal (fun _ => 0) rfl hf hopt (by decide)
  exact ⟨h.1, h.2.2.2.2⟩

theorem kinds10_pyLower {kind : String} (h : kind ∈ kinds10) : pyLower kind = kind := by
  simp only [kinds10, List.mem_cons, List.not_mem_nil, or_false] at h
  rcases h with rfl | rfl | rfl | rfl | rfl | rfl | rfl | rfl | rfl | rfl <;> decide

/-- C6: for any kind that is not one of the ten recognized kinds (even up to
lower-casing), `parse_match` fails with the unknown-kind lookup error
(`patterns[kind]` raises `KeyError`), the compiler branch of `solve` raises
its invalid-kind exception, and any `solve` call whose constraint list
contains that kind errors during compilation — nothing is ever added to a
model and the backend is never consulted. -/
theorem c6_unknown_kind (kind text : String) (hk : pyLower kind ∉ kinds10) :
    parse_match kind text = .error .keyError ∧
    (∀ p, parse_constraint p kind text = .error .invalidKind) ∧
    ∀ N p cons timeout oracle, (kind, text) ∈ cons →
      errored (compileModel N p cons) = true ∧
      errored (solve N p cons timeout oracle) = true := by
  have hne : ∀ k ∈ kinds10, pyLower kind ≠ k := fun k hk' he => hk (he ▸ hk')
  simp only [kinds10, List.mem_cons, List.not_mem_nil, or_false, forall_eq_or_imp,
    forall_eq] at hne
  obtain ⟨n₁, n₂, n₃, n₄, n₅, n₆, n₇, n₈, n₉, n₁₀⟩ := hne
  have hraw : kind ∉ kinds10 := fun hmem =>
    hk (by rw [kinds10_pyLower hmem]; exact hmem)
  have hpm : parse_match kind text = .error .keyError := by
    simp only [parse_match, if_neg n₁, if_neg n₂, if_neg n₃, if_neg n₄, if_neg n₅,
      if_neg n₆, if_neg n₇, if_neg n₈, if_neg n₉, if_neg n₁₀]
  have hpc : ∀ p, parse_constraint p kind text = .error .invalidKind := by
    intro p
    rw [parse_constraint, if_neg hraw]
  refine ⟨hpm, hpc, ?_⟩
  intro N p cons timeout oracle hmem
  have hbad : ∃ kt ∈ cons, errored (parse_constraint p kt.1 kt.2) = true :=
    ⟨(kind, text), hmem, by rw [hpc p]; rfl⟩
  obtain ⟨hc, hs, _⟩ := @solve_err_of_bad N p cons timeout hbad
  exact ⟨hc, hs oracle⟩

/-- Witness for C6: the unrecognized kind `"frobnicate"` fails everywhere. -/
theorem c6_unknown_kind_witness :
    parse_match "frobnicate" "zzz" = .error .keyError ∧
    parse_constraint 0 "frobnicate" "zzz" = .error .invalidKind ∧
    errored (solve 1 0 [("frobnicate", "zzz")] 60 oracleZ) = true := by
  have h := c6_unknown_kind "frobnicate" "zzz" (by decide)
  exact ⟨h.1, h.2.1 0, (h.2.2 1 0 [("frobnicate", "zzz")] 60 oracleZ (by simp)).2⟩

theorem matchIntFloat_sound {mid s g₁ g₂ rest : List Char}
    (h : matchIntFloat mid s = some ((g₁, g₂), rest)) :
    s = ("box ".data) ++ g₁ ++ mid ++ g₂ ++ rest ∧ digitsTok g₁ ∧ floatTok g₂ := by
  simp only [matchIntFloat, bind, Option.bind_eq_some] at h
  obtain ⟨s₁, hd₁, ⟨g₁', s₂⟩, hm₁, h⟩ := h
  simp only [Option.bind_eq_some] at h
  obtain ⟨s₃, hd₂, ⟨g₂', s₄⟩, hm₂, h⟩ := h
  simp only [Option.some.injEq, Prod.mk.injEq] at h
  obtain ⟨⟨rfl, rfl⟩, rfl⟩ := h
  obtain ⟨e₁, hne₁, ha₁⟩ := munchPlus_sound hm₁
  obtain ⟨e₂, hne₂, ha₂⟩ := munchPlus_sound hm₂
  rw [dropLit_sound hd₁, e₁, dropLit_sound hd₂, e₂]
  exact ⟨by simp, ⟨hne₁, ha₁⟩, ⟨hne₂, ha₂⟩⟩

theorem matchPos_sound {s g₁ side g₃ rest : List Char}
    (h : matchPos s = some ((g₁, side, g₃), rest)) :
    s = ("box ".data) ++ g₁ ++ (" is to the ".data) ++ side ++ (" of box ".data) ++ g₃ ++ rest ∧
      digitsTok g₁ ∧ side ∈ [("left".data), ("bottom".data)] ∧ digitsTok g₃ := by
  simp only [matchPos, bind, Option.bind_eq_some] at h
  obtain ⟨s₁, hd₁, ⟨g₁', s₂⟩, hm₁, h⟩ := h
  simp only [Option.bind_eq_some] at h
  obtain ⟨s₃, hd₂, ⟨side', s₄⟩, hal, h⟩ := h
  simp only [Option.bind_eq_some] at h
  obtain ⟨s₅, hd₃, ⟨g₃', s₆⟩, hm₂, h⟩ := h
  simp only [Option.some.injEq, Prod.mk.injEq] at h
  obtain ⟨⟨rfl, rfl, rfl⟩, rfl⟩ := h
  obtain ⟨e₁, hne₁, ha₁⟩ := munchPlus_sound hm₁
  obtain ⟨e₃, hne₃, ha₃⟩ := munchPlus_sound hm₂
  obtain ⟨hmem, he⟩ := matchAlt_sound hal
  rw [dropLit_sound hd₁, e₁, dropLit_sound hd₂, he, dropLit_sound hd₃, e₃]
  exact ⟨by simp, ⟨hne₁, ha₁⟩, hmem, hne₃, ha₃⟩

theorem matchRatio_sound {s g₁ cmp g₃ rest : List Char}
    (h : matchRatio s = some ((g₁, cmp, g₃), rest)) :
    s = ("box ".data) ++ g₁ ++ (" has aspect ratio of ".data) ++ cmp ++ (" ".data) ++ g₃ ++
        rest ∧
      digitsTok g₁ ∧ cmp ∈ [("at least".data), ("at most".data)] ∧ floatTok g₃ := by
  simp only [matchRatio, bind, Option.bind_eq_some] at h
  obtain ⟨s₁, hd₁, ⟨g₁', s₂⟩, hm₁, h⟩ := h
  simp only [Option.bind_eq_some] at h
  obtain ⟨s₃, hd₂, ⟨cmp', s₄⟩, hal, h⟩ := h
  simp only [Option.bind_eq_some] at h
  obtain ⟨s₅, hd₃, ⟨g₃', s₆⟩, hm₂, h⟩ := h
  simp only [Option.some.injEq, Prod.mk.injEq] at h
  obtain ⟨⟨rfl, rfl, rfl⟩, rfl⟩ := h
  obtain ⟨e₁, hne₁, ha₁⟩ := munchPlus_sound hm₁
  obtain ⟨e₃, hne₃, ha₃⟩ := munchPlus_sound hm₂
  obtain ⟨hmem, he⟩ := matchAlt_sound hal
  rw [dropLit_sound hd₁, e₁, dropLit_sound hd₂, he, dropLit_sound hd₃, e₃]
  exact ⟨by simp, ⟨hne₁, ha₁⟩, hmem, hne₃, ha₃⟩

theorem matchAlign_sound {alts : List (List Char)} {mid s a₁ g₁ a₂ g₂ rest : List Char}
    (h : matchAlign alts mid s = some ((a₁, g₁, a₂, g₂), rest)) :
    s = a₁ ++ (" of box ".data) ++ g₁ ++ mid ++ a₂ ++ (" of box ".data) ++ g₂ ++ rest ∧
      a₁ ∈ alts ∧ digitsTok g₁ ∧ a₂ ∈ alts ∧ digitsTok g₂ := by
  simp only [matchAlign, bind, Option.bind_eq_some] at h
  obtain ⟨⟨a₁', s₁⟩, hal₁, h⟩ := h
  simp only [Option.bind_eq_some] at h
  obtain ⟨s₂, hd₁, ⟨g₁', s₃⟩, hm₁, h⟩ := h
  simp only [Option.bind_eq_some] at h
  obtain ⟨s₄, hd₂, ⟨a₂', s₅⟩, hal₂, h⟩ := h
  simp only [Option.bind_eq_some] at h
  obtain ⟨s₆, hd₃, ⟨g₂', s₇⟩, hm₂, h⟩ := h
  simp only [Option.some.injEq, Prod.mk.injEq] at h
  obtain ⟨⟨rfl, rfl, rfl, rfl⟩, rfl⟩ := h
  obtain ⟨hmem₁, he₁⟩ := matchAlt_sound hal₁
  obtain ⟨e₁, hne₁, ha₁⟩ := munchPlus_sound hm₁
  obtain ⟨hmem₂, he₂⟩ := matchAlt_sound hal₂
  obtain ⟨e₂, hne₂, ha₂⟩ := munchPlus_sound hm₂
  rw [he₁, dropLit_sound hd₁, e₁, dropLit_sound hd₂, he₂, dropLit_sound hd₃, e₂]
  exact ⟨by simp, hmem₁, ⟨hne₁, ha₁⟩, hmem₂, hne₂, ha₂⟩

theorem matchSym_sound {s g₁ g₂ ax g₃ rest : List Char}
    (h : matchSym s = some ((g₁, g₂, ax, g₃), rest)) :
    s = ("box ".data) ++ g₁ ++ (" and box ".data) ++ g₂ ++
        (" are symmetric through axis ".data) ++ ax ++ ("=".data) ++ g₃ ++ rest ∧
      digitsTok g₁ ∧ digitsTok g₂ ∧ ax ∈ [("x".data), ("y".data)] ∧ floatTok g₃ := by
  simp only [matchSym, bind, Option.bind_eq_some] at h
  obtain ⟨s₁, hd₁, ⟨g₁', s₂⟩, hm₁, h⟩ := h
  simp only [Option.bind_eq_some] at h
  obtain ⟨s₃, hd₂, ⟨g₂', s₄⟩, hm₂, h⟩ := h
  simp only [Option.bind_eq_some] at h
  obtain ⟨s₅, hd₃, ⟨ax', s₆⟩, hal, h⟩ := h
  simp only [Option.bind_eq_some] at h
  obtain ⟨s₇, hd₄, ⟨g₃', s₈⟩, hm₃, h⟩ := h
  simp only [Option.some.injEq, Prod.mk.injEq] at h
  obtain ⟨⟨rfl, rfl, rfl, rfl⟩, rfl⟩ := h
  obtain ⟨e₁, hne₁, ha₁⟩ := munchPlus_sound hm₁
  obtain ⟨e₂, hne₂, ha₂⟩ := munchPlus_sound hm₂
  obtain ⟨e₃, hne₃, ha₃⟩ := munchPlus_sound hm₃
  obtain ⟨hmem, he⟩ := matchAlt_sound hal
  rw [dropLit_sound hd₁, e₁, dropLit_sound hd₂, e₂, dropLit_sound hd₃, he,
    dropLit_sound hd₄, e₃]
  exact ⟨by simp, ⟨hne₁, ha₁⟩, ⟨hne₂, ha₂⟩, hmem, hne₃, ha₃⟩

theorem simTail_sound {rem g s₂ : List Char} (h : simTail rem = some (g, s₂)) :
    rem = ("-scaled translate of box ".data) ++ g ++ s₂ ∧ digitsTok g := by
  simp only [simTail, bind, Option.bind_eq_some] at h
  obtain ⟨s₁, hd, ⟨g', s₂'⟩, hm, h⟩ := h
  simp only [Option.some.injEq, Prod.mk.injEq] at h
  obtain ⟨rfl, rfl⟩ := h
  obtain ⟨e, hne, ha⟩ := munchPlus_sound hm
  rw [dropLit_sound hd, e]
  exact ⟨by simp, hne, ha⟩

theorem simBT_sound :
    ∀ {capRev rem g₂ g₃ rest : List Char}, simBT capRev rem = some ((g₂, g₃), rest) →
      ∃ extra, capRev.reverse = g₂ ++ extra ∧
        extra ++ rem = ("-scaled translate of box ".data) ++ g₃ ++ rest ∧
        g₂ ≠ [] ∧ digitsTok g₃ := by
  intro capRev
  induction capRev with
  | nil => intro rem g₂ g₃ rest h; simp [simBT] at h
  | cons c capRev ih =>
    intro rem g₂ g₃ rest h
    rcases ht : simTail rem with _ | ⟨g₃', rest'⟩
    · rw [simBT, ht] at h
      obtain ⟨extra, h₁, h₂, h₃, h₄⟩ := ih h
      refine ⟨extra ++ [c], ?_, ?_, h₃, h₄⟩
      · rw [List.reverse_cons, ← List.append_assoc, ← h₁]
      · rw [List.append_assoc, List.singleton_append, h₂]
    · rw [simBT, ht] at h
      simp only [Option.some.injEq, Prod.mk.injEq] at h
      obtain ⟨⟨rfl, rfl⟩, rfl⟩ := h
      obtain ⟨he, hd⟩ := simTail_sound ht
      exact ⟨[], by simp, by rw [List.nil_append, he], by simp, hd⟩

theorem matchSim_sound {s g₁ g₂ g₃ rest : List Char}
    (h : matchSim s = some ((g₁, g₂, g₃), rest)) :
    s = ("box ".data) ++ g₁ ++ (" is ".data) ++ g₂ ++
        ("-scaled translate of box ".data) ++ g₃ ++ rest ∧
      digitsTok g₁ ∧ floatTok g₂ ∧ digitsTok g₃ := by
  simp only [matchSim, bind, Option.bind_eq_some] at h
  obtain ⟨s₁, hd₁, ⟨g₁', s₂⟩, hm₁, h⟩ := h
  simp only [Option.bind_eq_some] at h
  obtain ⟨s₃, hd₂, h⟩ := h
  rcases hmu : munch floatChar s₃ with ⟨m, s₄⟩
  rw [hmu] at h
  simp only [Option.bind_eq_some] at h
  obtain ⟨⟨⟨g₂', g₃'⟩, rest'⟩, hbt, h⟩ := h
  simp only [Option.some.injEq, Prod.mk.injEq] at h
  obtain ⟨⟨rfl, rfl, rfl⟩, rfl⟩ := h
  obtain ⟨e₁, hne₁, ha₁⟩ := munchPlus_sound hm₁
  obtain ⟨hm, hallm⟩ := munch_sound hmu
  obtain ⟨extra, hx₁, hx₂, hx₃, hx₄⟩ := simBT_sound hbt
  rw [List.reverse_reverse] at hx₁
  refine ⟨?_, ⟨hne₁, ha₁⟩, ⟨hx₃, ?_⟩, hx₄⟩
  · rw [dropLit_sound hd₁, e₁, dropLit_sound hd₂, hm, hx₁, List.append_assoc, hx₂]
    simp
  · intro c hc
    exact hallm c (by rw [hx₁]; exact List.mem_append_left _ hc)

theorem matchCont_sound {s g₁ g₂ g₃ rest : List Char}
    (h : matchCont s = some ((g₁, g₂, g₃), rest)) :
    s = ("box ".data) ++ g₁ ++ (" contains a point (".data) ++ g₂ ++ (",".data) ++ g₃ ++
        (")".data) ++ rest ∧
      digitsTok g₁ ∧ floatTok g₂ ∧ floatTok g₃ := by
  simp only [matchCont, bind, Option.bind_eq_some] at h
  obtain ⟨s₁, hd₁, ⟨g₁', s₂⟩, hm₁, h⟩ := h
  simp only [Option.bind_eq_some] at h
  obtain ⟨s₃, hd₂, ⟨g₂', s₄⟩, hm₂, h⟩ := h
  simp only [Option.bind_eq_some] at h
  obtain ⟨s₅, hd₃, ⟨g₃', s₆⟩, hm₃, h⟩ := h
  simp only [Option.bind_eq_some] at h
  obtain ⟨s₇, hd₄, h⟩ := h
  simp only [Option.some.injEq, Prod.mk.injEq] at h
  obtain ⟨⟨rfl, rfl, rfl⟩, rfl⟩ := h
  obtain ⟨e₁, hne₁, ha₁⟩ := munchPlus_sound hm₁
  obtain ⟨e₂, hne₂, ha₂⟩ := munchPlus_sound hm₂
  obtain ⟨e₃, hne₃, ha₃⟩ := munchPlus_sound hm₃
  rw [dropLit_sound hd₁, e₁, dropLit_sound hd₂, e₂, dropLit_sound hd₃, e₃,
    dropLit_sound hd₄]
  exact ⟨by simp, ⟨hne₁, ha₁⟩, ⟨hne₂, ha₂⟩, hne₃, ha₃⟩

/-- Keyword fields of a parsed fact are among the alternatives its pattern
can capture. -/
def factValid : Fact → Prop
  | .position _ side _ => side = "left" ∨ side = "bottom"
  | .ratio _ cmp _ => cmp = "at least" ∨ cmp = "at most"
  | .horizontalAlign a₁ _ a₂ _ =>
    (a₁ = "top" ∨ a₁ = "center" ∨ a₁ = "bottom") ∧
      (a₂ = "top" ∨ a₂ = "center" ∨ a₂ = "bottom")
  | .verticalAlign a₁ _ a₂ _ =>
    (a₁ = "left" ∨ a₁ = "center" ∨ a₁ = "right") ∧
      (a₂ = "left" ∨ a₂ = "center" ∨ a₂ = "right")
  | .symmetry _ _ ax _ => ax = "x" ∨ ax = "y"
  | _ => True

theorem parseWidth_valid {s : List Char} {f : Fact}
    (h : parseWidth s = .ok f) : factValid f := by
  rcases hmm : matchIntFloat (" has width of ".data) s with _ | ⟨⟨g₁, g₂⟩, rest⟩ <;>
    simp only [parseWidth, hmm] at h
  · exact absurd h (by simp)
  · rcases hq : pyFloatL g₂ with _ | q <;> rw [hq] at h
    · exact absurd h (by simp)
    · simp only [Except.ok.injEq] at h
      subst h; trivial

theorem parseHeight_valid {s : List Char} {f : Fact}
    (h : parseHeight s = .ok f) : factValid f := by
  rcases hmm : matchIntFloat (" has height of ".data) s with _ | ⟨⟨g₁, g₂⟩, rest⟩ <;>
    simp only [parseHeight, hmm] at h
  · exact absurd h (by simp)
  · rcases hq : pyFloatL g₂ with _ | q <;> rw [hq] at h
    · exact absurd h (by simp)
    · simp only [Except.ok.injEq] at h
      subst h; trivial

theorem parsePos_valid {s : List Char} {f : Fact}
    (h : parsePos s = .ok f) : factValid f := by
  rcases hmm : matchPos s with _ | ⟨⟨g₁, side, g₃⟩, rest⟩ <;>
    simp only [parsePos, hmm] at h
  · exact absurd h (by simp)
  · simp only [Except.ok.injEq] at h
    subst h
    obtain ⟨_, _, hmem, _⟩ := matchPos_sound hmm
    simp only [List.mem_cons, List.not_mem_nil, or_false] at hmem
    rcases hmem with rfl | rfl
    · exact Or.inl rfl
    · exact Or.inr rfl

theorem parseArea_valid {s : List Char} {f : Fact}
    (h : parseArea s = .ok f) : factValid f := by
  rcases hmm : matchIntFloat (" has area of at least ".data) s with _ | ⟨⟨g₁, g₂⟩, rest⟩ <;>
    simp only [parseArea, hmm] at h
  · exact absurd h (by simp)
  · rcases hq : pyFloatL g₂ with _ | q <;> rw [hq] at h
    · exact absurd h (by simp)
    · simp only [Except.ok.injEq] at h
      subst h; trivial

theorem parseRatio_valid {s : List Char} {f : Fact}
    (h : parseRatio s = .ok f) : factValid f := by
  rcases hmm : matchRatio s with _ | ⟨⟨g₁, cmp, g₃⟩, rest⟩ <;>
    simp only [parseRatio, hmm] at h
  · exact absurd h (by simp)
  · rcases hq : pyFloatL g₃ with _ | q <;> rw [hq] at h
    · exact absurd h (by simp)
    · simp only [Except.ok.injEq] at h
      subst h
      obtain ⟨_, _, hmem, _⟩ := matchRatio_sound hmm
      simp only [List.mem_cons, List.not_mem_nil, or_false] at hmem
      rcases hmem with rfl | rfl
      · exact Or.inl rfl
      · exact Or.inr rfl

theorem parseHA_valid {s : List Char} {f : Fact}
    (h : parseHA s = .ok f) : factValid f := by
  rcases hmm : matchAlign [("top".data), ("center".data), ("bottom".data)]
      (" aligns horizontally with ".data) s with _ | ⟨⟨a₁, g₁, a₂, g₂⟩, rest⟩ <;>
    simp only [parseHA, hmm] at h
  · exact absurd h (by simp)
  · simp only [Except.ok.injEq] at h
    subst h
    obtain ⟨_, hmem₁, _, hmem₂, _⟩ := matchAlign_sound hmm
    simp only [List.mem_cons, List.not_mem_nil, or_false] at hmem₁ hmem₂
    constructor
    · rcases hmem₁ with rfl | rfl | rfl
      · exact Or.inl rfl
      · exact Or.inr (Or.inl rfl)
      · exact Or.inr (Or.inr rfl)
    · rcases hmem₂ with rfl | rfl | rfl
      · exact Or.inl rfl
      · exact Or.inr (Or.inl rfl)
      · exact Or.inr (Or.inr rfl)

theorem parseVA_valid {s : List Char} {f : Fact}
    (h : parseVA s = .ok f) : factValid f := by
  rcases hmm : matchAlign [("left".data), ("center".data), ("right".data)]
      (" aligns vertically with ".data) s with _ | ⟨⟨a₁, g₁, a₂, g₂⟩, rest⟩ <;>
    simp only [parseVA, hmm] at h
  · exact absurd h (by simp)
  · simp only [Except.ok.injEq] at h
    subst h
    obtain ⟨_, hmem₁, _, hmem₂, _⟩ := matchAlign_sound hmm
    simp only [List.mem_cons, List.not_mem_nil, or_false] at hmem₁ hmem₂
    constructor
    · rcases hmem₁ with rfl | rfl | rfl
      · exact Or.inl rfl
      · exact Or.inr (Or.inl rfl)
      · exact Or.inr (Or.inr rfl)
    · rcases hmem₂ with rfl | rfl | rfl
      · exact Or.inl rfl
      · exact Or.inr (Or.inl rfl)
      · exact Or.inr (Or.inr rfl)

theorem parseSym_valid {s : List Char} {f : Fact}
    (h : parseSym s = .ok f) : factValid f := by
  rcases hmm : matchSym s with _ | ⟨⟨g₁, g₂, ax, g₃⟩, rest⟩ <;>
    simp only [parseSym, hmm] at h
  · exact absurd h (by simp)
  · rcases hq : pyFloatL g₃ with _ | q <;> rw [hq] at h
    · exact absurd h (by simp)
    · simp only [Except.ok.injEq] at h
      subst h
      obtain ⟨_, _, _, hmem, _⟩ := matchSym_sound hmm
      simp only [List.mem_cons, List.not_mem_nil, or_false] at hmem
      rcases hmem with rfl | rfl
      · exact Or.inl rfl
      · exact Or.inr rfl

theorem parseSim_valid {s : List Char} {f : Fact}
    (h : parseSim s = .ok f) : factValid f := by
  rcases hmm : matchSim s with _ | ⟨⟨g₁, g₂, g₃⟩, rest⟩ <;>
    simp only [parseSim, hmm] at h
  · exact absurd h (by simp)
  · rcases hq : pyFloatL g₂ with _ | q <;> rw [hq] at h
    · exact absurd h (by simp)
    · simp only [Except.ok.injEq] at h
      subst h; trivial

theorem parseCont_valid {s : List Char} {f : Fact}
    (h : parseCont s = .ok f) : factValid f := by
  rcases hmm : matchCont s with _ | ⟨⟨g₁, g₂, g₃⟩, rest⟩ <;>
    simp only [parseCont, hmm] at h
  · exact absurd h (by simp)
  · rcases hq₁ : pyFloatL g₂ with _ | q₁ <;> rw [hq₁] at h
    · exact absurd h (by simp)
    · rcases hq₂ : pyFloatL g₃ with _ | q₂ <;> rw [hq₂] at h
      · exact absurd h (by simp)
      · simp only [Except.ok.injEq] at h
        subst h; trivial

theorem parse_match_valid {kind text : String} {f : Fact} (hk : kind ∈ kinds10)
    (h : parse_match kind text = .ok f) : factValid f := by
  simp only [kinds10, List.mem_cons, List.not_mem_nil, or_false] at hk
  rcases hk with rfl | rfl | rfl | rfl | rfl | rfl | rfl | rfl | rfl | rfl
  · exact parseWidth_valid h
  · exact parseHeight_valid h
  · exact parsePos_valid h
  · exact parseArea_valid h
  · exact parseRatio_valid h
  · exact parseHA_valid h
  · exact parseVA_valid h
  · exact parseSym_valid h
  · exact parseSim_valid h
  · exact parseCont_valid h


/-- C3: for every `(kind, text)` pair with a recognized kind whose text
parses to a fact, `parse_constraint` adds exactly the constraint list that
the table of spec §4.3 assigns to that fact (and the table is defined
there). -/
theorem c3_compiler_matches_table (p : ℚ) (kind text : String) (f : Fact)
    (hk : kind ∈ kinds10) (hf : parse_match kind text = .ok f) :
    specTable43 p f = okOf (parse_constraint p kind text) ∧
    (okOf (parse_constraint p kind text)).isSome = true := by
  have hv : factValid f := parse_match_valid hk hf
  have hpc : parse_constraint p kind text = encodeFact p f := by
    rw [parse_constraint, if_pos hk, hf]
  rw [hpc]
  rcases f with ⟨b, v⟩ | ⟨b, v⟩ | ⟨b₁, side, b₂⟩ | ⟨b, v⟩ | ⟨b, cmp, v⟩ |
    ⟨a₁, b₁, a₂, b₂⟩ | ⟨a₁, b₁, a₂, b₂⟩ | ⟨b₁, b₂, ax, v⟩ | ⟨b₁, sc, b₂⟩ | ⟨b, px, py⟩
  · exact ⟨rfl, rfl⟩
  · exact ⟨rfl, rfl⟩
  · rcases hv with rfl | rfl <;> exact ⟨rfl, rfl⟩
  · exact ⟨rfl, rfl⟩
  · rcases hv with rfl | rfl <;> exact ⟨rfl, rfl⟩
  · obtain ⟨hv₁, hv₂⟩ := hv
    rcases hv₁ with rfl | rfl | rfl <;> rcases hv₂ with rfl | rfl | rfl <;> exact ⟨rfl, rfl⟩
  · obtain ⟨hv₁, hv₂⟩ := hv
    rcases hv₁ with rfl | rfl | rfl <;> rcases hv₂ with rfl | rfl | rfl <;> exact ⟨rfl, rfl⟩
  · rcases hv with rfl | rfl <;> exact ⟨rfl, rfl⟩
  · exact ⟨rfl, rfl⟩
  · exact ⟨rfl, rfl⟩

/-- Witness for C3: a concrete `width` constraint compiles to exactly the
table's constraint `w[3] == 2.5`. -/
theorem c3_compiler_matches_table_witness :
    parse_match "width" "box 3 has width of 2.5" = .ok (.width 3 (mkRat 5 2)) ∧
    specTable43 0 (.width 3 (mkRat 5 2)) =
      okOf (parse_constraint 0 "width" "box 3 has width of 2.5") := by
  have hf : parse_match "width" "box 3 has width of 2.5" = .ok (.width 3 (mkRat 5 2)) := by
    decide
  exact ⟨hf,
    (c3_compiler_matches_table 0 "width" "box 3 has width of 2.5" (.width 3 (mkRat 5 2))
      (by decide) hf).1⟩

theorem edgeH_indFree {al : String} {bx : ℕ} {e : LinExpr} (h : edgeH al bx = .ok e) :
    (exprVars e).all (fun v => !isInd v) = true := by
  rw [edgeH] at h
  split_ifs at h <;> simp only [Except.ok.injEq] at h <;> subst h <;> rfl

theorem edgeV_indFree {al : String} {bx : ℕ} {e : LinExpr} (h : edgeV al bx = .ok e) :
    (exprVars e).all (fun v => !isInd v) = true := by
  rw [edgeV] at h
  split_ifs at h <;> simp only [Except.ok.injEq] at h <;> subst h <;> rfl

theorem encodeFact_indFree {p : ℚ} {f : Fact} {cs : List Constr}
    (h : encodeFact p f = .ok cs) : ∀ c ∈ cs, indFree c = true := by
  rcases f with ⟨b, v⟩ | ⟨b, v⟩ | ⟨b₁, side, b₂⟩ | ⟨b, v⟩ | ⟨b, cmp, v⟩ |
    ⟨a₁, b₁, a₂, b₂⟩ | ⟨a₁, b₁, a₂, b₂⟩ | ⟨b₁, b₂, ax, v⟩ | ⟨b₁, sc, b₂⟩ | ⟨b, px, py⟩ <;>
    simp only [encodeFact] at h
  · obtain rfl := (Except.ok.injEq .. ▸ h :)
    intro c hc; fin_cases hc <;> rfl
  · obtain rfl := (Except.ok.injEq .. ▸ h :)
    intro c hc; fin_cases hc <;> rfl
  · split_ifs at h <;> obtain rfl := (Except.ok.injEq .. ▸ h :) <;>
      (intro c hc; fin_cases hc <;> rfl)
  · obtain rfl := (Except.ok.injEq .. ▸ h :)
    intro c hc; fin_cases hc <;> rfl
  · split_ifs at h <;> obtain rfl := (Except.ok.injEq .. ▸ h :) <;>
      (intro c hc; fin_cases hc <;> rfl)
  · rcases h₁ : edgeH a₁ b₁ with e | e₁ <;> rw [h₁] at h
    · exact absurd h (by simp)
    · rcases h₂ : edgeH a₂ b₂ with e | e₂ <;> rw [h₂] at h
      · exact absurd h (by simp)
      · obtain rfl := (Except.ok.injEq .. ▸ h :)
        intro c hc
        fin_cases hc
        simp only [indFree, constrVars, List.all_append]
        rw [edgeH_indFree h₁, edgeH_indFree h₂]
        rfl
  · rcases h₁ : edgeV a₁ b₁ with e | e₁ <;> rw [h₁] at h
    · exact absurd h (by simp)
    · rcases h₂ : edgeV a₂ b₂ with e | e₂ <;> rw [h₂] at h
      · exact absurd h (by simp)
      · obtain rfl := (Except.ok.injEq .. ▸ h :)
        intro c hc
        fin_cases hc
        simp only [indFree, constrVars, List.all_append]
        rw [edgeV_indFree h₁, edgeV_indFree h₂]
        rfl
  · split_ifs at h <;> obtain rfl := (Except.ok.injEq .. ▸ h :) <;>
      (intro c hc; fin_cases hc <;> rfl)
  · obtain rfl := (Except.ok.injEq .. ▸ h :)
    intro c hc; fin_cases hc <;> rfl
  · obtain rfl := (Except.ok.injEq .. ▸ h :)
    intro c hc; fin_cases hc <;> rfl

theorem parse_constraint_indFree {p : ℚ} {k txt : String} {cs : List Constr}
    (h : parse_constraint p k txt = .ok cs) : ∀ c ∈ cs, indFree c = true := by
  rw [parse_constraint] at h
  split_ifs at h
  rcases hpm : parse_match k txt with e | f <;> rw [hpm] at h
  · exact absurd h (by simp)
  · exact encodeFact_indFree h

theorem compileList_ok {p : ℚ} :
    ∀ {cons : List (String × String)} {m m' : GModel}, compileList p cons m = .ok m' →
      m'.vars = m.vars ∧ m'.objective = m.objective ∧ m'.minimize = m.minimize ∧
      ∃ extra, m'.constrs = m.constrs ++ extra ∧ ∀ c ∈ extra, indFree c = true := by
  intro cons
  induction cons with
  | nil =>
    intro m m' h
    simp only [compileList, Except.ok.injEq] at h
    subst h
    exact ⟨rfl, rfl, rfl, [], by simp, by simp⟩
  | cons kt rest ih =>
    intro m m' h
    rcases kt with ⟨k, txt⟩
    rcases hpc : parse_constraint p k txt with e | cs <;> rw [compileList, hpc] at h
    · exact absurd h (by simp)
    · obtain ⟨hv, ho, hmin, extra, hc, hfree⟩ := ih h
      refine ⟨hv, ho, hmin, cs ++ extra, ?_, ?_⟩
      · rw [hc]
        simp [addConstrs]
      · intro c hcm
        rcases List.mem_append.mp hcm with hcm' | hcm'
        · exact parse_constraint_indFree hpc c hcm'
        · exact hfree c hcm'

theorem mentionsPair_false_of_indFree {i j : ℕ} {c : Constr}
    (h : indFree c = true) : mentionsPair i j c = false := by
  rw [indFree, List.all_eq_true] at h
  rw [mentionsPair]
  by_contra hne
  rw [Bool.not_eq_false, List.any_eq_true] at hne
  obtain ⟨v, hv, hind⟩ := hne
  have := h v hv
  rcases v with _ | _ | _ | _ | _ | _ | ⟨i', j'⟩ | ⟨i', j'⟩ | ⟨i', j'⟩ | ⟨i', j'⟩ <;>
    simp [isInd] at this <;> simp [isIndFor] at hind

theorem filter_eq_nil_of_false {q : β → Bool} :
    ∀ {L : List β}, (∀ c ∈ L, q c = false) → L.filter q = [] := by
  intro L
  induction L with
  | nil => intro _; rfl
  | cons a L ih =>
    intro h
    rw [List.filter_cons, h a (by simp), ih fun c hc => h c (by simp [hc])]
    simp

theorem pairConstrsFor_filter_self (p : ℚ) (i j : ℕ) :
    (pairConstrsFor p i j).filter (mentionsPair i j) = pairConstrsFor p i j := by
  simp [pairConstrsFor, List.filter, mentionsPair, constrVars, exprVars, isIndFor]

theorem pairConstrsFor_filter_other {i j i' j' : ℕ} (p : ℚ) (h : ¬(i = i' ∧ j = j')) :
    (pairConstrsFor p i' j').filter (mentionsPair i j) = [] := by
  have hb : ((i == i') && (j == j')) = false := by
    by_cases h₁ : i = i'
    · by_cases h₂ : j = j'
      · exact absurd ⟨h₁, h₂⟩ h
      · simp [h₂]
    · simp [h₁]
  simp [pairConstrsFor, List.filter, mentionsPair, constrVars, exprVars, isIndFor, hb]

theorem boundConstrs_filter (N i j : ℕ) :
    (boundConstrs N).filter (mentionsPair i j) = [] := by
  apply filter_concatMap_nil
  intro k _
  rfl

theorem pairConstrs_filter {N i j : ℕ} (p : ℚ) (hij : i < j) (hjN : j < N) :
    (pairConstrs N p).filter (mentionsPair i j) = pairConstrsFor p i j := by
  rw [pairConstrs]
  rw [filter_concatMap_single N 0 i (by omega) (by omega) ?side]
  case side =>
    intro k hk
    apply filter_concatMap_nil
    intro j' _
    exact pairConstrsFor_filter_other p (by omega)
  rw [filter_concatMap_single (N - (i + 1)) (i + 1) j (by omega)
    (by omega : j < (i + 1) + (N - (i + 1))) ?side2]
  case side2 =>
    intro k hk
    exact pairConstrsFor_filter_other p (by omega)
  exact pairConstrsFor_filter_self p i j

/-- C2: for every `N`, `p ≥ 0` and successfully compiled constraint list,
the model built by `solve` minimizes the perimeter `2*(W+H)`, contains the
bounding constraints `x_i + w_i ≤ W` and `y_i + h_i ≤ H` for every box, and
for every pair `i < j < N` its constraints that involve the pair's
indicator variables are exactly the four indicator implications with
padding `p` together with `l+r ≤ 1`, `b+t ≤ 1` and `l+r+b+t ≥ 1`, over the
pair's own four binary variables. -/
theorem c2_model_shape (N : ℕ) (p : ℚ) (cons : List (String × String)) (m : GModel)
    (hp : 0 ≤ p) (hcm : compileModel N p cons = .ok m) :
    m.minimize = true ∧
    m.objective = .smul 2 (.add (.va .W) (.va .H)) ∧
    (∀ i, i < N →
      Constr.le (.add (.va (.x i)) (.va (.w i))) (.va .W) ∈ m.constrs ∧
      Constr.le (.add (.va (.y i)) (.va (.h i))) (.va .H) ∈ m.constrs) ∧
    ∀ i j, i < j → j < N →
      (Var.l i j, VType.binary) ∈ m.vars ∧ (Var.r i j, VType.binary) ∈ m.vars ∧
      (Var.b i j, VType.binary) ∈ m.vars ∧ (Var.t i j, VType.binary) ∈ m.vars ∧
      m.constrs.filter (mentionsPair i j) = pairConstrsFor p i j := by
  obtain ⟨hv, ho, hmin, extra, hc, hfree⟩ := compileList_ok hcm
  have hbase : ∀ c ∈ boundConstrs N ++ pairConstrs N p, c ∈ m.constrs := by
    intro c hcm'
    rw [hc]
    exact List.mem_append.mpr (Or.inl hcm')
  refine ⟨hmin, ho, ?_, ?_⟩
  · intro i hi
    constructor
    · apply hbase
      apply List.mem_append.mpr (Or.inl ?_)
      rw [boundConstrs]
      exact mem_concatMap.mpr ⟨i, mem_natRange.mpr (by omega), by simp⟩
    · apply hbase
      apply List.mem_append.mpr (Or.inl ?_)
      rw [boundConstrs]
      exact mem_concatMap.mpr ⟨i, mem_natRange.mpr (by omega), by simp⟩
  · intro i j hij hjN
    have hvar : ∀ vt ∈ [(Var.l i j, VType.binary), (Var.r i j, VType.binary),
        (Var.b i j, VType.binary), (Var.t i j, VType.binary)], vt ∈ m.vars := by
      intro vt hvt
      rw [hv]
      show vt ∈ baseVars N
      rw [baseVars]
      refine List.mem_append.mpr (Or.inr ?_)
      refine mem_concatMap.mpr ⟨i, mem_natRange.mpr (by omega), ?_⟩
      refine mem_concatMap.mpr ⟨j, mem_natRange.mpr (by omega), ?_⟩
      exact hvt
    refine ⟨hvar _ (by simp), hvar _ (by simp), hvar _ (by simp), hvar _ (by simp), ?_⟩
    rw [hc]
    simp only [baseModel]
    rw [List.filter_append, List.filter_append, boundConstrs_filter,
      pairConstrs_filter p hij hjN, filter_eq_nil_of_false
        (fun c hcm' => mentionsPair_false_of_indFree (hfree c hcm')),
      List.append_nil, List.nil_append]

/-- Witness for C2: the base model for two boxes at `p = 0` (no user
constraints) has the claimed shape at the pair `(0, 1)`. -/
theorem c2_model_shape_witness :
    (baseModel 2 0).objective = .smul 2 (.add (.va .W) (.va .H)) ∧
    Constr.le (.add (.va (.x 0)) (.va (.w 0))) (.va .W) ∈ (baseModel 2 0).constrs ∧
    (Var.l 0 1, VType.binary) ∈ (baseModel 2 0).vars ∧
    (baseModel 2 0).constrs.filter (mentionsPair 0 1) = pairConstrsFor 0 0 1 := by
  have h := c2_model_shape 2 0 [] (baseModel 2 0) (le_refl 0) rfl
  exact ⟨h.2.1, (h.2.2.1 0 (by omega)).1, (h.2.2.2 0 1 (by omega) (by omega)).1,
    (h.2.2.2 0 1 (by omega) (by omega)).2.2.2.2⟩

theorem munchPlus_exact_nil {pr : Char → Bool} {g : List Char}
    (hne : g ≠ []) (hall : ∀ c ∈ g, pr c = true) :
    munchPlus pr g = some (g, []) := by
  have := @munchPlus_exact pr g [] hne hall trivial
  rwa [List.append_nil] at this

theorem matchIntFloat_exact (mid : List Char) {b v : List Char}
    (hmid : headNot Char.isDigit (mid ++ v))
    (hb : digitsTok b) (hv : floatTok v) :
    matchIntFloat mid (("box ".data) ++ b ++ mid ++ v) = some ((b, v), []) := by
  have h₁ : munchPlus Char.isDigit (b ++ (mid ++ v)) = some (b, mid ++ v) :=
    munchPlus_exact (mid ++ v) hb.1 hb.2 hmid
  have h₂ : munchPlus floatChar v = some (v, []) := munchPlus_exact_nil hv.1 hv.2
  simp only [matchIntFloat, bind, List.append_assoc, dropLit_self, Option.some_bind, h₁, h₂]

theorem matchPos_exact {b₁ side b₂ : List Char}
    (hb₁ : digitsTok b₁) (hside : side ∈ [("left".data), ("bottom".data)])
    (hb₂ : digitsTok b₂) :
    matchPos (("box ".data) ++ b₁ ++ (" is to the ".data) ++ side ++ (" of box ".data) ++ b₂) =
      some ((b₁, side, b₂), []) := by
  have h₁ : munchPlus Char.isDigit
      (b₁ ++ ((" is to the ".data) ++ (side ++ ((" of box ".data) ++ b₂)))) =
      some (b₁, (" is to the ".data) ++ (side ++ ((" of box ".data) ++ b₂))) :=
    munchPlus_exact _ hb₁.1 hb₁.2 rfl
  have h₂ : munchPlus Char.isDigit b₂ = some (b₂, []) := munchPlus_exact_nil hb₂.1 hb₂.2
  have hal : matchAlt [("left".data), ("bottom".data)] (side ++ ((" of box ".data) ++ b₂)) =
      some (side, (" of box ".data) ++ b₂) := by
    simp only [List.mem_cons, List.not_mem_nil, or_false] at hside
    rcases hside with rfl | rfl
    · simp only [matchAlt, dropLit_self]
    · have hno : dropLit ("left".data) ((("bottom".data)) ++ ((" of box ".data) ++ b₂)) =
        none := rfl
      simp only [matchAlt, hno, dropLit_self]
  simp only [matchPos, bind, List.append_assoc, dropLit_self, Option.some_bind, h₁, hal, h₂]

theorem matchRatio_exact {b cmp v : List Char}
    (hb : digitsTok b) (hcmp : cmp ∈ [("at least".data), ("at most".data)])
    (hv : floatTok v) :
    matchRatio (("box ".data) ++ b ++ (" has aspect ratio of ".data) ++ cmp ++
        (" ".data) ++ v) =
      some ((b, cmp, v), []) := by
  have h₁ : munchPlus Char.isDigit
      (b ++ ((" has aspect ratio of ".data) ++ (cmp ++ ((" ".data) ++ v)))) =
      some (b, (" has aspect ratio of ".data) ++ (cmp ++ ((" ".data) ++ v))) :=
    munchPlus_exact _ hb.1 hb.2 rfl
  have h₂ : munchPlus floatChar v = some (v, []) := munchPlus_exact_nil hv.1 hv.2
  have hal : matchAlt [("at least".data), ("at most".data)] (cmp ++ ((" ".data) ++ v)) =
      some (cmp, (" ".data) ++ v) := by
    simp only [List.mem_cons, List.not_mem_nil, or_false] at hcmp
    rcases hcmp with rfl | rfl
    · simp only [matchAlt, dropLit_self]
    · have hno : dropLit ("at least".data) ((("at most".data)) ++ ((" ".data) ++ v)) =
        none := rfl
      simp only [matchAlt, hno, dropLit_self]
  simp only [matchRatio, bind, List.append_assoc, dropLit_self, Option.some_bind, h₁, hal, h₂]

theorem matchAlignH_alt {a rest : List Char}
    (ha : a ∈ [("top".data), ("center".data), ("bottom".data)]) :
    matchAlt [("top".data), ("center".data), ("bottom".data)] (a ++ rest) =
      some (a, rest) := by
  simp only [List.mem_cons, List.not_mem_nil, or_false] at ha
  rcases ha with rfl | rfl | rfl
  · simp only [matchAlt, dropLit_self]
  · have h₁ : dropLit ("top".data) ((("center".data)) ++ rest) = none := rfl
    simp only [matchAlt, h₁, dropLit_self]
  · have h₁ : dropLit ("top".data) ((("bottom".data)) ++ rest) = none := rfl
    have h₂ : dropLit ("center".data) ((("bottom".data)) ++ rest) = none := rfl
    simp only [matchAlt, h₁, h₂, dropLit_self]

theorem matchAlignV_alt {a rest : List Char}
    (ha : a ∈ [("left".data), ("center".data), ("right".data)]) :
    matchAlt [("left".data), ("center".data), ("right".data)] (a ++ rest) =
      some (a, rest) := by
  simp only [List.mem_cons, List.not_mem_nil, or_false] at ha
  rcases ha with rfl | rfl | rfl
  · simp only [matchAlt, dropLit_self]
  · have h₁ : dropLit ("left".data) ((("center".data)) ++ rest) = none := rfl
    simp only [matchAlt, h₁, dropLit_self]
  · have h₁ : dropLit ("left".data) ((("right".data)) ++ rest) = none := rfl
    have h₂ : dropLit ("center".data) ((("right".data)) ++ rest) = none := rfl
    simp only [matchAlt, h₁, h₂, dropLit_self]

theorem matchAlign_exact {alts : List (List Char)} (mid : List Char)
    {a₁ b₁ a₂ b₂ : List Char}
    (halt : ∀ (a rest : List Char), a ∈ alts → matchAlt alts (a ++ rest) = some (a, rest))
    (hmid : headNot Char.isDigit (mid ++ (a₂ ++ ((" of box ".data) ++ b₂))))
    (ha₁ : a₁ ∈ alts) (hb₁ : digitsTok b₁) (ha₂ : a₂ ∈ alts) (hb₂ : digitsTok b₂) :
    matchAlign alts mid
        (a₁ ++ (" of box ".data) ++ b₁ ++ mid ++ a₂ ++ (" of box ".data) ++ b₂) =
      some ((a₁, b₁, a₂, b₂), []) := by
  have h₁ := halt a₁ ((" of box ".data) ++ (b₁ ++ (mid ++ (a₂ ++ ((" of box ".data) ++ b₂))))) ha₁
  have h₂ : munchPlus Char.isDigit (b₁ ++ (mid ++ (a₂ ++ ((" of box ".data) ++ b₂)))) =
      some (b₁, mid ++ (a₂ ++ ((" of box ".data) ++ b₂))) :=
    munchPlus_exact _ hb₁.1 hb₁.2 hmid
  have h₃ := halt a₂ ((" of box ".data) ++ b₂) ha₂
  have h₄ : munchPlus Char.isDigit b₂ = some (b₂, []) := munchPlus_exact_nil hb₂.1 hb₂.2
  simp only [matchAlign, bind, List.append_assoc, h₁, Option.some_bind, dropLit_self,
    h₂, h₃, h₄]

theorem matchSym_exact {b₁ b₂ ax v : List Char}
    (hb₁ : digitsTok b₁) (hb₂ : digitsTok b₂) (hax : ax ∈ [("x".data), ("y".data)])
    (hv : floatTok v) :
    matchSym (("box ".data) ++ b₁ ++ (" and box ".data) ++ b₂ ++
        (" are symmetric through axis ".data) ++ ax ++ ("=".data) ++ v) =
      some ((b₁, b₂, ax, v), []) := by
  have h₁ : munchPlus Char.isDigit
      (b₁ ++ ((" and box ".data) ++ (b₂ ++ ((" are symmetric through axis ".data) ++
        (ax ++ (("=".data) ++ v)))))) =
      some (b₁, (" and box ".data) ++ (b₂ ++ ((" are symmetric through axis ".data) ++
        (ax ++ (("=".data) ++ v))))) :=
    munchPlus_exact _ hb₁.1 hb₁.2 rfl
  have h₂ : munchPlus Char.isDigit
      (b₂ ++ ((" are symmetric through axis ".data) ++ (ax ++ (("=".data) ++ v)))) =
      some (b₂, (" are symmetric through axis ".data) ++ (ax ++ (("=".data) ++ v))) :=
    munchPlus_exact _ hb₂.1 hb₂.2 rfl
  have h₃ : munchPlus floatChar v = some (v, []) := munchPlus_exact_nil hv.1 hv.2
  have hal : matchAlt [("x".data), ("y".data)] (ax ++ (("=".data) ++ v)) =
      some (ax, ("=".data) ++ v) := by
    simp only [List.mem_cons, List.not_mem_nil, or_false] at hax
    rcases hax with rfl | rfl
    · simp only [matchAlt, dropLit_self]
    · have hno : dropLit ("x".data) ((("y".data)) ++ (("=".data) ++ v)) = none := rfl
      simp only [matchAlt, hno, dropLit_self]
  simp only [matchSym, bind, List.append_assoc, dropLit_self, Option.some_bind, h₁, h₂, hal, h₃]

theorem matchCont_exact {b v₁ v₂ : List Char}
    (hb : digitsTok b) (hv₁ : floatTok v₁) (hv₂ : floatTok v₂) :
    matchCont (("box ".data) ++ b ++ (" contains a point (".data) ++ v₁ ++ (",".data) ++
        v₂ ++ (")".data)) =
      some ((b, v₁, v₂), []) := by
  have h₁ : munchPlus Char.isDigit
      (b ++ ((" contains a point (".data) ++ (v₁ ++ ((",".data) ++ (v₂ ++ (")".data)))))) =
      some (b, (" contains a point (".data) ++ (v₁ ++ ((",".data) ++ (v₂ ++ (")".data))))) :=
    munchPlus_exact _ hb.1 hb.2 rfl
  have h₂ : munchPlus floatChar (v₁ ++ ((",".data) ++ (v₂ ++ (")".data)))) =
      some (v₁, (",".data) ++ (v₂ ++ (")".data))) :=
    munchPlus_exact _ hv₁.1 hv₁.2 rfl
  have h₃ : munchPlus floatChar (v₂ ++ (")".data)) = some (v₂, (")".data)) :=
    munchPlus_exact _ hv₂.1 hv₂.2 rfl
  have h₄ : dropLit (")".data) ((")".data) ++ []) = some [] := dropLit_self _ _
  rw [List.append_nil] at h₄
  simp only [matchCont, bind, List.append_assoc, dropLit_self, Option.some_bind, h₁, h₂, h₃, h₄]

theorem matchSim_exact {b₁ sc b₂ : List Char}
    (hb₁ : digitsTok b₁) (hsc : floatTok sc) (hb₂ : digitsTok b₂) :
    matchSim (("box ".data) ++ b₁ ++ (" is ".data) ++ sc ++
        ("-scaled translate of box ".data) ++ b₂) =
      some ((b₁, sc, b₂), []) := by
  have h₁ : munchPlus Char.isDigit
      (b₁ ++ ((" is ".data) ++ (sc ++ (("-scaled translate of box ".data) ++ b₂)))) =
      some (b₁, (" is ".data) ++ (sc ++ (("-scaled translate of box ".data) ++ b₂))) :=
    munchPlus_exact _ hb₁.1 hb₁.2 rfl
  have hsplit : sc ++ (("-scaled translate of box ".data) ++ b₂) =
      (sc ++ ['-']) ++ (("scaled translate of box ".data) ++ b₂) := by
    have : ("-scaled translate of box ".data) = '-' :: ("scaled translate of box ".data) := rfl
    rw [this, List.append_cons]
    simp [List.append_assoc]
  have hmu : munch floatChar (sc ++ (("-scaled translate of box ".data) ++ b₂)) =
      (sc ++ ['-'], ("scaled translate of box ".data) ++ b₂) := by
    rw [hsplit]
    apply munch_exact
    · intro c hc
      rcases List.mem_append.mp hc with hc' | hc'
      · exact hsc.2 c hc'
      · simp only [List.mem_singleton] at hc'
        subst hc'
        rfl
    · rfl
  have hbt : simBT (sc ++ ['-']).reverse (("scaled translate of box ".data) ++ b₂) =
      some ((sc, b₂), []) := by
    have hrev : (sc ++ ['-']).reverse = '-' :: sc.reverse := by
      rw [List.reverse_append]
      rfl
    have htail₁ : simTail (("scaled translate of box ".data) ++ b₂) = none := by
      have : dropLit ("-scaled translate of box ".data)
          ((("scaled translate of box ".data)) ++ b₂) = none := rfl
      simp only [simTail, bind, this, Option.none_bind]
    have htail₂ : simTail ('-' :: (("scaled translate of box ".data) ++ b₂)) =
        some (b₂, []) := by
      have hd : dropLit ("-scaled translate of box ".data)
          ('-' :: (("scaled translate of box ".data) ++ b₂)) = some b₂ := by
        have : '-' :: (("scaled translate of box ".data) ++ b₂) =
            ("-scaled translate of box ".data) ++ b₂ := rfl
        rw [this]
        exact dropLit_self _ _
      have hm : munchPlus Char.isDigit b₂ = some (b₂, []) :=
        munchPlus_exact_nil hb₂.1 hb₂.2
      simp only [simTail, bind, hd, Option.some_bind, hm]
    rw [hrev]
    rcases hscr : sc.reverse with _ | ⟨c, cr⟩
    · exact absurd (by rw [← List.reverse_reverse sc, hscr]; rfl) hsc.1
    · rw [simBT, htail₁, simBT, htail₂]
      have : (c :: cr).reverse = sc := by rw [← hscr, List.reverse_reverse]
      rw [this]
  simp only [matchSim, bind, List.append_assoc, dropLit_self, Option.some_bind, h₁, hmu, hbt]

theorem parseWidth_complete {b v : List Char} {q : ℚ} (hb : digitsTok b)
    (hv : floatTok v) (hq : pyFloatL v = some q) :
    parseWidth (("box ".data) ++ b ++ (" has width of ".data) ++ v) =
      .ok (.width (digitsToNat b) q) := by
  simp only [parseWidth, matchIntFloat_exact (" has width of ".data) rfl hb hv, hq]

theorem parseHeight_complete {b v : List Char} {q : ℚ} (hb : digitsTok b)
    (hv : floatTok v) (hq : pyFloatL v = some q) :
    parseHeight (("box ".data) ++ b ++ (" has height of ".data) ++ v) =
      .ok (.height (digitsToNat b) q) := by
  simp only [parseHeight, matchIntFloat_exact (" has height of ".data) rfl hb hv, hq]

theorem parseArea_complete {b v : List Char} {q : ℚ} (hb : digitsTok b)
    (hv : floatTok v) (hq : pyFloatL v = some q) :
    parseArea (("box ".data) ++ b ++ (" has area of at least ".data) ++ v) =
      .ok (.area (digitsToNat b) q) := by
  simp only [parseArea, matchIntFloat_exact (" has area of at least ".data) rfl hb hv, hq]

theorem parsePos_complete {b₁ side b₂ : List Char} (hb₁ : digitsTok b₁)
    (hside : side ∈ [("left".data), ("bottom".data)]) (hb₂ : digitsTok b₂) :
    parsePos (("box ".data) ++ b₁ ++ (" is to the ".data) ++ side ++
        (" of box ".data) ++ b₂) =
      .ok (.position (digitsToNat b₁) (String.mk side) (digitsToNat b₂)) := by
  simp only [parsePos, matchPos_exact hb₁ hside hb₂]

theorem parseRatio_complete {b cmp v : List Char} {q : ℚ} (hb : digitsTok b)
    (hcmp : cmp ∈ [("at least".data), ("at most".data)]) (hv : floatTok v)
    (hq : pyFloatL v = some q) :
    parseRatio (("box ".data) ++ b ++ (" has aspect ratio of ".data) ++ cmp ++
        (" ".data) ++ v) =
      .ok (.ratio (digitsToNat b) (String.mk cmp) q) := by
  simp only [parseRatio, matchRatio_exact hb hcmp hv, hq]

theorem parseHA_complete {a₁ b₁ a₂ b₂ : List Char}
    (ha₁ : a₁ ∈ [("top".data), ("center".data), ("bottom".data)]) (hb₁ : digitsTok b₁)
    (ha₂ : a₂ ∈ [("top".data), ("center".data), ("bottom".data)]) (hb₂ : digitsTok b₂) :
    parseHA (a₁ ++ (" of box ".data) ++ b₁ ++ (" aligns horizontally with ".data) ++ a₂ ++
        (" of box ".data) ++ b₂) =
      .ok (.horizontalAlign (String.mk a₁) (digitsToNat b₁) (String.mk a₂)
        (digitsToNat b₂)) := by
  simp only [parseHA, matchAlign_exact (" aligns horizontally with ".data)
    (fun a rest ha => matchAlignH_alt ha) rfl ha₁ hb₁ ha₂ hb₂]

theorem parseVA_complete {a₁ b₁ a₂ b₂ : List Char}
    (ha₁ : a₁ ∈ [("left".data), ("center".data), ("right".data)]) (hb₁ : digitsTok b₁)
    (ha₂ : a₂ ∈ [("left".data), ("center".data), ("right".data)]) (hb₂ : digitsTok b₂) :
    parseVA (a₁ ++ (" of box ".data) ++ b₁ ++ (" aligns vertically with ".data) ++ a₂ ++
        (" of box ".data) ++ b₂) =
      .ok (.verticalAlign (String.mk a₁) (digitsToNat b₁) (String.mk a₂)
        (digitsToNat b₂)) := by
  simp only [parseVA, matchAlign_exact (" aligns vertically with ".data)
    (fun a rest ha => matchAlignV_alt ha) rfl ha₁ hb₁ ha₂ hb₂]

theorem parseSym_complete {b₁ b₂ ax v : List Char} {q : ℚ} (hb₁ : digitsTok b₁)
    (hb₂ : digitsTok b₂) (hax : ax ∈ [("x".data), ("y".data)]) (hv : floatTok v)
    (hq : pyFloatL v = some q) :
    parseSym (("box ".data) ++ b₁ ++ (" and box ".data) ++ b₂ ++
        (" are symmetric through axis ".data) ++ ax ++ ("=".data) ++ v) =
      .ok (.symmetry (digitsToNat b₁) (digitsToNat b₂) (String.mk ax) q) := by
  simp only [parseSym, matchSym_exact hb₁ hb₂ hax hv, hq]

theorem parseSim_complete {b₁ sc b₂ : List Char} {q : ℚ} (hb₁ : digitsTok b₁)
    (hsc : floatTok sc) (hb₂ : digitsTok b₂) (hq : pyFloatL sc = some q) :
    parseSim (("box ".data) ++ b₁ ++ (" is ".data) ++ sc ++
        ("-scaled translate of box ".data) ++ b₂) =
      .ok (.similarity (digitsToNat b₁) q (digitsToNat b₂)) := by
  simp only [parseSim, matchSim_exact hb₁ hsc hb₂, hq]

theorem parseCont_complete {b v₁ v₂ : List Char} {q₁ q₂ : ℚ} (hb : digitsTok b)
    (hv₁ : floatTok v₁) (hv₂ : floatTok v₂) (hq₁ : pyFloatL v₁ = some q₁)
    (hq₂ : pyFloatL v₂ = some q₂) :
    parseCont (("box ".data) ++ b ++ (" contains a point (".data) ++ v₁ ++ (",".data) ++
        v₂ ++ (")".data)) =
      .ok (.containment (digitsToNat b) q₁ q₂) := by
  simp only [parseCont, matchCont_exact hb hv₁ hv₂, hq₁, hq₂]

/-- C4, counterexample to the claim as stated: `"box 0 has width of e"`
matches the `width` literal grammar of spec §6 exactly (the `<float>` token
is `[-+e\d.]+`, and `"e"` belongs to it), yet `parse` does not return a
structured fact — `float("e")` raises `ValueError`. -/
theorem c4_counterexample :
    kindGrammar "width" (("box 0 has width of e").data) ∧
    parse_match "width" "box 0 has width of e" = .error .valueError := by
  constructor
  · show ∃ g₁ g₂, digitsTok g₁ ∧ floatTok g₂ ∧
      ("box 0 has width of e").data = ("box ".data) ++ g₁ ++ (" has width of ".data) ++ g₂
    exact ⟨("0").data, ("e").data, ⟨by decide, by decide⟩, ⟨by decide, by decide⟩, by decide⟩
  · decide

/-- C4 (amended): for every one of the 10 recognized kinds (matched
case-insensitively on both the kind and the text) and every text whose
lower-casing matches that kind's literal grammar of spec §6 *and whose
numeric captures are valid Python float literals*, `parse` succeeds and
returns the exact expected structured fact — numeric fields as (exact)
real numbers, box fields as non-negative integers, keyword fields as the
captured words. -/
theorem c4_parse_totality (kind text : String) :
    (∀ (b v : List Char) (q : ℚ), pyLower kind = "width" →
      (pyLower text).data = ("box ".data) ++ b ++ (" has width of ".data) ++ v →
      digitsTok b → floatTok v → pyFloatL v = some q →
      parse_match kind text = .ok (.width (digitsToNat b) q)) ∧
    (∀ (b v : List Char) (q : ℚ), pyLower kind = "height" →
      (pyLower text).data = ("box ".data) ++ b ++ (" has height of ".data) ++ v →
      digitsTok b → floatTok v → pyFloatL v = some q →
      parse_match kind text = .ok (.height (digitsToNat b) q)) ∧
    (∀ (b₁ side b₂ : List Char), pyLower kind = "position" →
      (pyLower text).data = ("box ".data) ++ b₁ ++ (" is to the ".data) ++ side ++
        (" of box ".data) ++ b₂ →
      digitsTok b₁ → side ∈ [("left".data), ("bottom".data)] → digitsTok b₂ →
      parse_match kind text =
        .ok (.position (digitsToNat b₁) (String.mk side) (digitsToNat b₂))) ∧
    (∀ (b v : List Char) (q : ℚ), pyLower kind = "area" →
      (pyLower text).data = ("box ".data) ++ b ++ (" has area of at least ".data) ++ v →
      digitsTok b → floatTok v → pyFloatL v = some q →
      parse_match kind text = .ok (.area (digitsToNat b) q)) ∧
    (∀ (b cmp v : List Char) (q : ℚ), pyLower kind = "ratio" →
      (pyLower text).data = ("box ".data) ++ b ++ (" has aspect ratio of ".data) ++ cmp ++
        (" ".data) ++ v →
      digitsTok b → cmp ∈ [("at least".data), ("at most".data)] → floatTok v →
      pyFloatL v = some q →
      parse_match kind text = .ok (.ratio (digitsToNat b) (String.mk cmp) q)) ∧
    (∀ (a₁ b₁ a₂ b₂ : List Char), pyLower kind = "horizontal_align" →
      (pyLower text).data = a₁ ++ (" of box ".data) ++ b₁ ++
        (" aligns horizontally with ".data) ++ a₂ ++ (" of box ".data) ++ b₂ →
      a₁ ∈ [("top".data), ("center".data), ("bottom".data)] → digitsTok b₁ →
      a₂ ∈ [("top".data), ("center".data), ("bottom".data)] → digitsTok b₂ →
      parse_match kind text =
        .ok (.horizontalAlign (String.mk a₁) (digitsToNat b₁) (String.mk a₂)
          (digitsToNat b₂))) ∧
    (∀ (a₁ b₁ a₂ b₂ : List Char), pyLower kind = "vertical_align" →
      (pyLower text).data = a₁ ++ (" of box ".data) ++ b₁ ++
        (" aligns vertically with ".data) ++ a₂ ++ (" of box ".data) ++ b₂ →
      a₁ ∈ [("left".data), ("center".data), ("right".data)] → digitsTok b₁ →
      a₂ ∈ [("left".data), ("center".data), ("right".data)] → digitsTok b₂ →
      parse_match kind text =
        .ok (.verticalAlign (String.mk a₁) (digitsToNat b₁) (String.mk a₂)
          (digitsToNat b₂))) ∧
    (∀ (b₁ b₂ ax v : List Char) (q : ℚ), pyLower kind = "symmetry" →
      (pyLower text).data = ("box ".data) ++ b₁ ++ (" and box ".data) ++ b₂ ++
        (" are symmetric through axis ".data) ++ ax ++ ("=".data) ++ v →
      digitsTok b₁ → digitsTok b₂ → ax ∈ [("x".data), ("y".data)] → floatTok v →
      pyFloatL v = some q →
      parse_match kind text =
        .ok (.symmetry (digitsToNat b₁) (digitsToNat b₂) (String.mk ax) q)) ∧
    (∀ (b₁ sc b₂ : List Char) (q : ℚ), pyLower kind = "similarity" →
      (pyLower text).data = ("box ".data) ++ b₁ ++ (" is ".data) ++ sc ++
        ("-scaled translate of box ".data) ++ b₂ →
      digitsTok b₁ → floatTok sc → digitsTok b₂ → pyFloatL sc = some q →
      parse_match kind text = .ok (.similarity (digitsToNat b₁) q (digitsToNat b₂))) ∧
    (∀ (b v₁ v₂ : List Char) (q₁ q₂ : ℚ), pyLower kind = "containment" →
      (pyLower text).data = ("box ".data) ++ b ++ (" contains a point (".data) ++ v₁ ++
        (",".data) ++ v₂ ++ (")".data) →
      digitsTok b → floatTok v₁ → floatTok v₂ → pyFloatL v₁ = some q₁ →
      pyFloatL v₂ = some q₂ →
      parse_match kind text = .ok (.containment (digitsToNat b) q₁ q₂)) := by
  refine ⟨?_, ?_, ?_, ?_, ?_, ?_, ?_, ?_, ?_, ?_⟩
  · intro b v q hk ht hb hv hq
    have he : parse_match kind text = parseWidth ((pyLower text).data) := by
      simp only [parse_match, hk]; rfl
    rw [he, ht]
    exact parseWidth_complete hb hv hq
  · intro b v q hk ht hb hv hq
    have he : parse_match kind text = parseHeight ((pyLower text).data) := by
      simp only [parse_match, hk]; rfl
    rw [he, ht]
    exact parseHeight_complete hb hv hq
  · intro b₁ side b₂ hk ht hb₁ hside hb₂
    have he : parse_match kind text = parsePos ((pyLower text).data) := by
      simp only [parse_match, hk]; rfl
    rw [he, ht]
    exact parsePos_complete hb₁ hside hb₂
  · intro b v q hk ht hb hv hq
    have he : parse_match kind text = parseArea ((pyLower text).data) := by
      simp only [parse_match, hk]; rfl
    rw [he, ht]
    exact parseArea_complete hb hv hq
  · intro b cmp v q hk ht hb hcmp hv hq
    have he : parse_match kind text = parseRatio ((pyLower text).data) := by
      simp only [parse_match, hk]; rfl
    rw [he, ht]
    exact parseRatio_complete hb hcmp hv hq
  · intro a₁ b₁ a₂ b₂ hk ht ha₁ hb₁ ha₂ hb₂
    have he : parse_match kind text = parseHA ((pyLower text).data) := by
      simp only [parse_match, hk]; rfl
    rw [he, ht]
    exact parseHA_complete ha₁ hb₁ ha₂ hb₂
  · intro a₁ b₁ a₂ b₂ hk ht ha₁ hb₁ ha₂ hb₂
    have he : parse_match kind text = parseVA ((pyLower text).data) := by
      simp only [parse_match, hk]; rfl
    rw [he, ht]
    exact parseVA_complete ha₁ hb₁ ha₂ hb₂
  · intro b₁ b₂ ax v q hk ht hb₁ hb₂ hax hv hq
    have he : parse_match kind text = parseSym ((pyLower text).data) := by
      simp only [parse_match, hk]; rfl
    rw [he, ht]
    exact parseSym_complete hb₁ hb₂ hax hv hq
  · intro b₁ sc b₂ q hk ht hb₁ hsc hb₂ hq
    have he : parse_match kind text = parseSim ((pyLower text).data) := by
      simp only [parse_match, hk]; rfl
    rw [he, ht]
    exact parseSim_complete hb₁ hsc hb₂ hq
  · intro b v₁ v₂ q₁ q₂ hk ht hb hv₁ hv₂ hq₁ hq₂
    have he : parse_match kind text = parseCont ((pyLower text).data) := by
      simp only [parse_match, hk]; rfl
    rw [he, ht]
    exact parseCont_complete hb hv₁ hv₂ hq₁ hq₂

/-- Witness for C4 (amended): a mixed-case `width` constraint parses to the
exact expected fact. -/
theorem c4_parse_totality_witness :
    pyLower "WIDTH" = "width" ∧
    (pyLower "Box 3 HAS width of 2.5").data =
      ("box ".data) ++ (("3").data) ++ (" has width of ".data) ++ (("2.5").data) ∧
    pyFloatL (("2.5").data) = some (mkRat 5 2) ∧
    parse_match "WIDTH" "Box 3 HAS width of 2.5" = .ok (.width 3 (mkRat 5 2)) := by
  refine ⟨by decide, by decide, by decide, ?_⟩
  have h := (c4_parse_totality "WIDTH" "Box 3 HAS width of 2.5").1 (("3").data) (("2.5").data)
    (mkRat 5 2) (by decide) (by decide) (by decide) (by decide) (by decide)
  exact h

/-- C5, counterexample to the claim as stated: `"box 1 has width of 2xyz"`
does not belong to the `width` literal grammar (its float field would have
to contain `x`, `y`, `z`), yet `parse` does not fail with the no-match
error — `re.match` anchors only at the start of the text, the pattern
matches the prefix `"box 1 has width of 2"`, and parsing succeeds. -/
theorem c5_counterexample :
    ¬ kindGrammar "width" (("box 1 has width of 2xyz").data) ∧
    parse_match "width" "box 1 has width of 2xyz" = .ok (.width 1 (mkRat 2 1)) := by
  constructor
  · intro hg
    obtain ⟨b, v, hb, hv, heq⟩ := hg
    have hz : 'z' ∈ ("box 1 has width of 2xyz").data := by decide
    rw [heq] at hz
    simp only [List.mem_append] at hz
    rcases hz with ((hz | hz) | hz) | hz
    · revert hz; decide
    · exact absurd (hb.2 'z' hz) (by decide)
    · revert hz; decide
    · exact absurd (hv.2 'z' hz) (by decide)
  · decide

/-- C5 (amended): for every recognized kind and every text such that no
prefix of the lower-cased text belongs to the kind's literal grammar (the
`re.match` anchoring semantics: the registered pattern matches at the start
of the text or not at all), `parse` fails with the no-match error, and only
then.  Texts with a grammar-matching proper prefix may instead parse
successfully or raise the float conversion error. -/
theorem c5_nomatch_outside_grammar_starts (kind text : String) (hk : kind ∈ kinds10)
    (hno : ¬ ∃ u rest, (pyLower text).data = u ++ rest ∧ kindGrammar kind u) :
    parse_match kind text = .error .invalidConstraint := by
  simp only [kinds10, List.mem_cons, List.not_mem_nil, or_false] at hk
  rcases hk with rfl | rfl | rfl | rfl | rfl | rfl | rfl | rfl | rfl | rfl
  · rcases hmm : matchIntFloat (" has width of ".data) ((pyLower text).data) with
      _ | ⟨⟨g₁, g₂⟩, rest⟩
    · show parseWidth ((pyLower text).data) = .error .invalidConstraint
      simp only [parseWidth, hmm]
    · exfalso
      obtain ⟨hs, hd, hf⟩ := matchIntFloat_sound hmm
      exact hno ⟨("box ".data) ++ g₁ ++ (" has width of ".data) ++ g₂, rest, hs,
        ⟨g₁, g₂, hd, hf, rfl⟩⟩
  · rcases hmm : matchIntFloat (" has height of ".data) ((pyLower text).data) with
      _ | ⟨⟨g₁, g₂⟩, rest⟩
    · show parseHeight ((pyLower text).data) = .error .invalidConstraint
      simp only [parseHeight, hmm]
    · exfalso
      obtain ⟨hs, hd, hf⟩ := matchIntFloat_sound hmm
      exact hno ⟨("box ".data) ++ g₁ ++ (" has height of ".data) ++ g₂, rest, hs,
        ⟨g₁, g₂, hd, hf, rfl⟩⟩
  · rcases hmm : matchPos ((pyLower text).data) with _ | ⟨⟨g₁, side, g₃⟩, rest⟩
    · show parsePos ((pyLower text).data) = .error .invalidConstraint
      simp only [parsePos, hmm]
    · exfalso
      obtain ⟨hs, hd₁, hmem, hd₃⟩ := matchPos_sound hmm
      exact hno ⟨("box ".data) ++ g₁ ++ (" is to the ".data) ++ side ++
        (" of box ".data) ++ g₃, rest, hs, ⟨g₁, side, g₃, hd₁, hmem, hd₃, rfl⟩⟩
  · rcases hmm : matchIntFloat (" has area of at least ".data) ((pyLower text).data) with
      _ | ⟨⟨g₁, g₂⟩, rest⟩
    · show parseArea ((pyLower text).data) = .error .invalidConstraint
      simp only [parseArea, hmm]
    · exfalso
      obtain ⟨hs, hd, hf⟩ := matchIntFloat_sound hmm
      exact hno ⟨("box ".data) ++ g₁ ++ (" has area of at least ".data) ++ g₂, rest, hs,
        ⟨g₁, g₂, hd, hf, rfl⟩⟩
  · rcases hmm : matchRatio ((pyLower text).data) with _ | ⟨⟨g₁, cmp, g₃⟩, rest⟩
    · show parseRatio ((pyLower text).data) = .error .invalidConstraint
      simp only [parseRatio, hmm]
    · exfalso
      obtain ⟨hs, hd, hmem, hf⟩ := matchRatio_sound hmm
      exact hno ⟨("box ".data) ++ g₁ ++ (" has aspect ratio of ".data) ++ cmp ++
        (" ".data) ++ g₃, rest, hs, ⟨g₁, cmp, g₃, hd, hmem, hf, rfl⟩⟩
  · rcases hmm : matchAlign [("top".data), ("center".data), ("bottom".data)]
        (" aligns horizontally with ".data) ((pyLower text).data) with
      _ | ⟨⟨a₁, g₁, a₂, g₂⟩, rest⟩
    · show parseHA ((pyLower text).data) = .error .invalidConstraint
      simp only [parseHA, hmm]
    · exfalso
      obtain ⟨hs, hmem₁, hd₁, hmem₂, hd₂⟩ := matchAlign_sound hmm
      exact hno ⟨a₁ ++ (" of box ".data) ++ g₁ ++ (" aligns horizontally with ".data) ++
        a₂ ++ (" of box ".data) ++ g₂, rest, hs,
        ⟨a₁, g₁, a₂, g₂, hmem₁, hd₁, hmem₂, hd₂, rfl⟩⟩
  · rcases hmm : matchAlign [("left".data), ("center".data), ("right".data)]
        (" aligns vertically with ".data) ((pyLower text).data) with
      _ | ⟨⟨a₁, g₁, a₂, g₂⟩, rest⟩
    · show parseVA ((pyLower text).data) = .error .invalidConstraint
      simp only [parseVA, hmm]
    · exfalso
      obtain ⟨hs, hmem₁, hd₁, hmem₂, hd₂⟩ := matchAlign_sound hmm
      exact hno ⟨a₁ ++ (" of box ".data) ++ g₁ ++ (" aligns vertically with ".data) ++
        a₂ ++ (" of box ".data) ++ g₂, rest, hs,
        ⟨a₁, g₁, a₂, g₂, hmem₁, hd₁, hmem₂, hd₂, rfl⟩⟩
  · rcases hmm : matchSym ((pyLower text).data) with _ | ⟨⟨g₁, g₂, ax, g₃⟩, rest⟩
    · show parseSym ((pyLower text).data) = .error .invalidConstraint
      simp only [parseSym, hmm]
    · exfalso
      obtain ⟨hs, hd₁, hd₂, hmem, hf⟩ := matchSym_sound hmm
      exact hno ⟨("box ".data) ++ g₁ ++ (" and box ".data) ++ g₂ ++
        (" are symmetric through axis ".data) ++ ax ++ ("=".data) ++ g₃, rest, hs,
        ⟨g₁, g₂, ax, g₃, hd₁, hd₂, hmem, hf, rfl⟩⟩
  · rcases hmm : matchSim ((pyLower text).data) with _ | ⟨⟨g₁, g₂, g₃⟩, rest⟩
    · show parseSim ((pyLower text).data) = .error .invalidConstraint
      simp only [parseSim, hmm]
    · exfalso
      obtain ⟨hs, hd₁, hf, hd₃⟩ := matchSim_sound hmm
      exact hno ⟨("box ".data) ++ g₁ ++ (" is ".data) ++ g₂ ++
        ("-scaled translate of box ".data) ++ g₃, rest, hs,
        ⟨g₁, g₂, g₃, hd₁, hf, hd₃, rfl⟩⟩
  · rcases hmm : matchCont ((pyLower text).data) with _ | ⟨⟨g₁, g₂, g₃⟩, rest⟩
    · show parseCont ((pyLower text).data) = .error .invalidConstraint
      simp only [parseCont, hmm]
    · exfalso
      obtain ⟨hs, hd, hf₁, hf₂⟩ := matchCont_sound hmm
      exact hno ⟨("box ".data) ++ g₁ ++ (" contains a point (".data) ++ g₂ ++
        (",".data) ++ g₃ ++ (")".data), rest, hs, ⟨g₁, g₂, g₃, hd, hf₁, hf₂, rfl⟩⟩

/-- Witness for C5 (amended): `"hello"` has no prefix in the `width` grammar
(every such string starts with `"box "`), and `parse` reports the no-match
error on it. -/
theorem c5_nomatch_outside_grammar_starts_witness :
    parse_match "width" "hello" = .error .invalidConstraint := by
  apply c5_nomatch_outside_grammar_starts "width" "hello" (by decide)
  intro hex
  obtain ⟨u, rest, heq, hg⟩ := hex
  obtain ⟨b, v, hb, hv, hu⟩ := hg
  rw [hu] at heq
  have h1 : ((("box ".data) ++ b ++ (" has width of ".data) ++ v) ++ rest).head? =
      some 'b' := rfl
  have h2 := congrArg List.head? heq
  rw [h1] at h2
  exact absurd h2 (by decide)

end Floor
